import Mathlib

/-!
Verification of the conflict-resolution and sync-strategy engine of the
git-flow-mcp repository (src/tools/resolve-conflicts.ts and
src/tools/sync-work.ts), as a shallow embedding in Lean 4.

JavaScript strings are modelled as lists of characters (`JStr`), and the
JavaScript string operations used by the source (split, join, trim,
startsWith, includes, parseInt) are defined below with JavaScript
semantics.  Shell commands are modelled through an oracle environment
that maps each command to its captured result; the sequence of executed
commands and file writes is recorded as an explicit effect trace.
-/

/-- Model of a JavaScript string: a list of UTF-16-like characters. -/
abbrev JStr := List Char

/-- Characters treated as whitespace by JavaScript `trim` (the subset
that can occur in this code base: space, tab, newline, carriage return,
vertical tab, form feed). -/
def jsIsWhite (c : Char) : Bool :=
  c = ' ' || c = '\t' || c = '\n' || c = '\r' || c = '\x0b' || c = '\x0c'

/-- JavaScript `String.prototype.trim`: drop whitespace from both ends. -/
def jsTrim (s : JStr) : JStr :=
  ((s.dropWhile jsIsWhite).reverse.dropWhile jsIsWhite).reverse

/-- JavaScript `String.prototype.split` with a one-character separator:
always returns at least one piece; adjacent separators produce empty
pieces. -/
def jsSplitOn (sep : Char) : JStr → List JStr
  | [] => [[]]
  | c :: cs =>
    match jsSplitOn sep cs with
    | [] => []
    | r :: rs => if c = sep then [] :: r :: rs else (c :: r) :: rs

/-- JavaScript `Array.prototype.join` with a one-character separator. -/
def jsJoin (sep : Char) : List JStr → JStr
  | [] => []
  | [x] => x
  | x :: xs => x ++ sep :: jsJoin sep xs

/-- JavaScript `String.prototype.startsWith`. -/
def jsStartsWith : JStr → JStr → Bool
  | _, [] => true
  | [], _ :: _ => false
  | c :: cs, p :: ps => c = p && jsStartsWith cs ps

/-- JavaScript `String.prototype.includes`: substring containment
(`"".includes("")` is true). -/
def jsContains : JStr → JStr → Bool
  | s, sub =>
    if jsStartsWith s sub then true
    else
      match s with
      | [] => false
      | _ :: cs => jsContains cs sub

/-! ## Conflict marker parser (analyzeFileConflicts, resolve-conflicts.ts:69-132) -/

def startMarker : JStr := "<<<<<<<".toList
def middleMarker : JStr := "=======".toList
def endMarker : JStr := ">>>>>>>".toList

/-- One `<<<<<<<`/`=======`/`>>>>>>>` region of a file.  Field names
follow the source object (`start`, `end`, `oursContent`,
`theirsContent`); `end` is a Lean keyword, hence `endIdx`. -/
structure ConflictBlock where
  start : Nat
  endIdx : Nat
  oursContent : JStr
  theirsContent : JStr
deriving DecidableEq, Repr

/-- The inner loop of `analyzeFileConflicts` (resolve-conflicts.ts:96-103):
scanning the lines after a start marker, it records the first `=======`
line and breaks at the first `>>>>>>>` line.  A block is recognised
exactly when both exist and the first `=======` precedes the first
`>>>>>>>`; the returned indices are relative to the lines after the
start marker. -/
def markersOf (rest : List JStr) : Option (Nat × Nat) :=
  match List.findIdx? (fun l => jsStartsWith l middleMarker) rest,
        List.findIdx? (fun l => jsStartsWith l endMarker) rest with
  | some m, some e => if m < e then some (m, e) else none
  | _, _ => none

/-- The scanning loop of `analyzeFileConflicts` (resolve-conflicts.ts:88-123),
with `off` the absolute index of the first element of `lines` and a fuel
parameter making the recursion structural (the scan consumes at least
one line per step, so any fuel of at least `lines.length` is enough).
On a line starting with `<<<<<<<`, if the marker search succeeds a block
is emitted and scanning resumes just after the end marker; otherwise the
scan advances one line. -/
def scanAux : Nat → Nat → List JStr → List ConflictBlock
  | 0, _, _ => []
  | _ + 1, _, [] => []
  | fuel + 1, off, l :: rest =>
    if jsStartsWith l startMarker then
      match markersOf rest with
      | some (m, e) =>
        { start := off, endIdx := off + e + 1,
          oursContent := jsJoin '\n' (rest.take m),
          theirsContent := jsJoin '\n' ((rest.drop (m + 1)).take (e - m - 1)) }
          :: scanAux fuel (off + e + 2) (rest.drop (e + 1))
      | none => scanAux fuel (off + 1) rest
    else scanAux fuel (off + 1) rest

/-- The scan with exactly enough fuel. -/
def scanConflicts (off : Nat) (lines : List JStr) : List ConflictBlock :=
  scanAux lines.length off lines

/-- `analyzeFileConflicts` on a file content string: split into lines and
scan (resolve-conflicts.ts:79-128). -/
def parseConflicts (content : JStr) : List ConflictBlock :=
  scanConflicts 0 (jsSplitOn '\n' content)

/-- The number of well-formed conflict regions of a line sequence, written
from the claim wording of C2: a region is a line starting with the start
marker such that the first middle marker after it precedes the first end
marker after it (the reading the spec itself fixes in its edge-case list:
only the first middle/end after a start count); the count resumes after
the end marker, and a dangling start marker contributes nothing.
Fuel-based like the scan. -/
def regionCountAux : Nat → List JStr → Nat
  | 0, _ => 0
  | _ + 1, [] => 0
  | fuel + 1, l :: rest =>
    if jsStartsWith l startMarker then
      match markersOf rest with
      | some (_, e) => 1 + regionCountAux fuel (rest.drop (e + 1))
      | none => regionCountAux fuel rest
    else regionCountAux fuel rest

/-- Count of well-formed conflict regions (claim wording of C2). -/
def wellFormedRegionCount (lines : List JStr) : Nat :=
  regionCountAux lines.length lines

/-! ## Smart-resolution heuristics (resolve-conflicts.ts:206-236) -/

/-- The regular expression test of `isImportBlock`
(`/^(import|require|from|#include)/m`): with the multiline flag, some
line of the text starts with one of the four keywords. -/
def hasImportLine (s : JStr) : Bool :=
  (jsSplitOn '\n' s).any fun l =>
    jsStartsWith l "import".toList || jsStartsWith l "require".toList ||
    jsStartsWith l "from".toList || jsStartsWith l "#include".toList

/-- `isImportBlock` (resolve-conflicts.ts:207-210). -/
def isImportBlock (ours theirs : JStr) : Bool :=
  hasImportLine ours && hasImportLine theirs

/-- Lexicographic order on character lists by code point, the default
JavaScript `Array.prototype.sort` comparison for strings. -/
def lexLe : JStr → JStr → Bool
  | [], _ => true
  | _ :: _, [] => false
  | a :: as, b :: bs => if a < b then true else if b < a then false else lexLe as bs

/-- Insertion into a lexicographically sorted list. -/
def insertLex (x : JStr) : List JStr → List JStr
  | [] => [x]
  | y :: ys => if lexLe x y then x :: y :: ys else y :: insertLex x ys

/-- Insertion sort by `lexLe` (JavaScript `sort()` on deduplicated
strings determines a unique sorted result). -/
def sortLex : List JStr → List JStr
  | [] => []
  | x :: xs => insertLex x (sortLex xs)

/-- First-occurrence deduplication, as `[...new Set(list)]`. -/
def dedupFirst (l : List JStr) : List JStr :=
  l.foldl (fun acc x => if acc.contains x then acc else acc ++ [x]) []

/-- `mergeImports` (resolve-conflicts.ts:212-221): non-blank lines of both
sides, deduplicated, sorted, joined by newlines. -/
def mergeImports (ours theirs : JStr) : JStr :=
  let oursLines := (jsSplitOn '\n' ours).filter fun l => jsTrim l ≠ []
  let theirsLines := (jsSplitOn '\n' theirs).filter fun l => jsTrim l ≠ []
  jsJoin '\n' (sortLex (dedupFirst (oursLines ++ theirsLines)))

/-- `isSimpleAddition` (resolve-conflicts.ts:223-231): each side trimmed
splits into at most five lines (blank interior lines included), and
neither raw side contains the substring `delete` or the character `-`
anywhere. -/
def isSimpleAddition (ours theirs : JStr) : Bool :=
  (jsSplitOn '\n' (jsTrim ours)).length ≤ 5 &&
  (jsSplitOn '\n' (jsTrim theirs)).length ≤ 5 &&
  !jsContains ours "delete".toList && !jsContains theirs "delete".toList &&
  !jsContains ours "-".toList && !jsContains theirs "-".toList

/-- Decide whether a character list begins with `\d+` followed by the
continuation test `k`: a nonempty maximal digit run, then `k` on the
remainder.  Because a digit cannot match the character after the run,
greedy matching is exact here. -/
def digitRunThen (k : JStr → Bool) (s : JStr) : Bool :=
  (s.takeWhile Char.isDigit) ≠ [] && k (s.dropWhile Char.isDigit)

/-- Matching of the regular expression `"v?\d+\.\d+\.\d+"` at the head of
a character list. -/
def semverAt (s : JStr) : Bool :=
  match s with
  | '"' :: r =>
    let r2 := match r with
      | 'v' :: r' => r'
      | _ => r
    digitRunThen
      (fun t => match t with
        | '.' :: t2 =>
          digitRunThen
            (fun u => match u with
              | '.' :: u2 =>
                digitRunThen
                  (fun w => match w with
                    | '"' :: _ => true
                    | _ => false) u2
              | _ => false) t2
        | _ => false) r2
  | _ => false

/-- The regular expression test of `isVersionConflict`
(`/version|VERSION|"v?\d+\.\d+\.\d+"/`): the text contains `version`,
or `VERSION`, or a quoted semantic version literal. -/
def hasVersionToken (s : JStr) : Bool :=
  jsContains s "version".toList || jsContains s "VERSION".toList ||
  s.tails.any semverAt

/-- `isVersionConflict` (resolve-conflicts.ts:233-236). -/
def isVersionConflict (ours theirs : JStr) : Bool :=
  hasVersionToken ours && hasVersionToken theirs

/-! ## Classification chain (applySmartResolution body, resolve-conflicts.ts:155-185)

The source computes, for each block, a resolution string and a strategy
label through a chain of guards; the pair `("", "")` is the fall-through
(no automatic resolution, manual handling). -/

/-- The per-block resolution computation of `applySmartResolution`
(resolve-conflicts.ts:152-185), as a function of the two sides. -/
def smartResolution (ours theirs : JStr) : JStr × String :=
  if jsTrim ours = [] && jsTrim theirs ≠ [] then
    (theirs, "theirs (ours empty)")
  else if jsTrim ours ≠ [] && jsTrim theirs = [] then
    (ours, "ours (theirs empty)")
  else if jsContains ours theirs then
    (ours, "ours (includes theirs)")
  else if jsContains theirs ours then
    (theirs, "theirs (includes ours)")
  else if isImportBlock ours theirs then
    (mergeImports ours theirs, "merged imports")
  else if isSimpleAddition ours theirs then
    (ours ++ '\n' :: theirs, "combined additions")
  else if isVersionConflict ours theirs then
    (theirs, "theirs (version update)")
  else
    ([], "")

/-- The ordered guard/outcome chain of the classifier, used to state that
classification applies the rules in fixed precedence order with the
first matching rule winning. -/
def classifierRules (ours theirs : JStr) : List (Bool × (JStr × String)) :=
  [ (jsTrim ours = [] && jsTrim theirs ≠ [], (theirs, "theirs (ours empty)")),
    (jsTrim ours ≠ [] && jsTrim theirs = [], (ours, "ours (theirs empty)")),
    (jsContains ours theirs, (ours, "ours (includes theirs)")),
    (jsContains theirs ours, (theirs, "theirs (includes ours)")),
    (isImportBlock ours theirs, (mergeImports ours theirs, "merged imports")),
    (isSimpleAddition ours theirs, (ours ++ '\n' :: theirs, "combined additions")),
    (isVersionConflict ours theirs, (theirs, "theirs (version update)")) ]

/-- First matching rule of an ordered guard chain, with a default. -/
def firstRule (d : JStr × String) : List (Bool × (JStr × String)) → JStr × String
  | [] => d
  | (g, r) :: rest => if g then r else firstRule d rest

/-- The invariant of every block emitted by the scan on `lines` placed at
absolute offset `off`: the block sits inside `lines`, its start, middle
and end lines carry the corresponding markers, and the two sides are the
newline-joins of the line ranges strictly between the markers. -/
def BlockProps (lines : List JStr) (off : Nat) (b : ConflictBlock) : Prop :=
  off ≤ b.start ∧ b.start < b.endIdx ∧ b.endIdx < off + lines.length ∧
  ∃ m, b.start < m ∧ m < b.endIdx ∧
    (∃ x, lines[b.start - off]? = some x ∧ jsStartsWith x startMarker) ∧
    (∃ x, lines[m - off]? = some x ∧ jsStartsWith x middleMarker) ∧
    (∃ x, lines[b.endIdx - off]? = some x ∧ jsStartsWith x endMarker) ∧
    b.oursContent = jsJoin '\n' ((lines.drop (b.start - off + 1)).take (m - b.start - 1)) ∧
    b.theirsContent = jsJoin '\n' ((lines.drop (m - off + 1)).take (b.endIdx - m - 1))



/-! ## File rewriting (applySmartResolution, resolve-conflicts.ts:135-204) -/

/-- One splice step `lines.splice(start, end - start + 1, resolution)`
(resolve-conflicts.ts:189): the marker span of a block is replaced by a
single element holding the (possibly multi-line) resolution text. -/
def spliceLines (ls : List JStr) (b : ConflictBlock) (r : JStr) : List JStr :=
  ls.take b.start ++ [r] ++ ls.drop (b.endIdx + 1)

/-- The resolution loop of `applySmartResolution`
(resolve-conflicts.ts:148-194): blocks are processed from the last to
the first (a right fold), each resolvable block is spliced out, the
resolved count incremented, and a strategy description appended (hence
in reverse document order, as pushed by the source loop).  Returns the
final line array, the resolved count and the descriptions. -/
def applySmartLines (lines : List JStr) (blocks : List ConflictBlock) :
    List JStr × Nat × List String :=
  blocks.foldr
    (fun b st =>
      if (smartResolution b.oursContent b.theirsContent).1 ≠ [] then
        (spliceLines st.1 b (smartResolution b.oursContent b.theirsContent).1, st.2.1 + 1,
         st.2.2 ++ ["Line " ++ toString (b.start + 1) ++ ": " ++
           (smartResolution b.oursContent b.theirsContent).2])
      else st)
    (lines, 0, [])

/-- `applySmartResolution` at the content level
(resolve-conflicts.ts:141-200): the file is split into lines, the loop
runs, and the joined result is written back only when at least one block
was resolved; the first component is the file content after the call. -/
def applySmartContent (content : JStr) (blocks : List ConflictBlock) :
    JStr × Nat × List String :=
  let r := applySmartLines (jsSplitOn '\n' content) blocks
  (if r.2.1 > 0 then jsJoin '\n' r.1 else content, r.2.1, r.2.2)

/-- Pair each block with its computed resolution text. -/
def blockResolutions (blocks : List ConflictBlock) : List (ConflictBlock × JStr) :=
  blocks.map fun b => (b, (smartResolution b.oursContent b.theirsContent).1)

/-- Pure right fold of splices (the resolution loop once every block is
resolvable). -/
def spliceAll (ls : List JStr) (brs : List (ConflictBlock × JStr)) : List JStr :=
  brs.foldr (fun p acc => spliceLines acc p.1 p.2) ls

/-- Simultaneous replacement of disjoint sorted marker spans by their
resolutions: the segment of `ls` before each block, then the resolution,
then recursively the remainder after the span.  `off` is the absolute
index of the head of `ls`. -/
def segsAbs : Nat → List JStr → List (ConflictBlock × JStr) → List JStr
  | _, ls, [] => ls
  | off, ls, (b, r) :: bs =>
    ls.take (b.start - off) ++ [r] ++
      segsAbs (b.endIdx + 1) (ls.drop (b.endIdx + 1 - off)) bs

/-- An absolute line index lying outside every block marker span. -/
def outsideSpans (blocks : List ConflictBlock) (i : Nat) : Prop :=
  ∀ b ∈ blocks, i < b.start ∨ b.endIdx < i

instance (blocks : List ConflictBlock) (i : Nat) : Decidable (outsideSpans blocks i) :=
  inferInstanceAs (Decidable (∀ b ∈ blocks, _))

/-- Concrete content for the C4 witness: one plainly resolvable block
with clean surrounding lines. -/
def c4wcontent : JStr := "a\n<<<<<<< x\nb\n=======\nc\n>>>>>>> y\nd".toList

/-- Concrete content for the C4 counterexample: one resolvable block
whose ours side itself begins with a start marker, followed by stray
middle and end marker lines outside any block. -/
def c4content : JStr :=
  "<<<<<<<\n<<<<<<< x\n=======\nb\n>>>>>>>\n=======\n>>>>>>>".toList

/-! ## Command port and effect model for the resolve_conflicts tool -/

/-- The shell commands issued by resolve_conflicts, as a typed alphabet
standing for the command strings of the source; file arguments are the
interpolated paths. -/
inductive RCCmd where
  | revParseGitDir
  | testMergeHead
  | testRebaseApply
  | testRebaseMerge
  | testCherryPickHead
  | diffUnmerged
  | stashPush
  | checkoutOurs (file : JStr)
  | checkoutTheirs (file : JStr)
  | gitAdd (file : JStr)
  | rebaseContinue
  | commitNoEdit
  | cherryPickContinue
  | rebaseAbort
  | mergeAbort
  | cherryPickAbort
deriving DecidableEq, Repr

/-- Captured result of one command execution. -/
structure CmdOut where
  stdout : JStr
  success : Bool
  err : JStr
deriving DecidableEq, Repr

/-- Oracle environment for a run of the tool: the captured result of
each command and the content of each file read from disk. -/
structure RCEnv where
  run : RCCmd → CmdOut
  file : JStr → JStr

/-- `executeCommand` (resolve-conflicts.ts:29-44): on success the
captured stdout is trimmed; on failure stdout is empty and the error
text is carried. -/
def executeCommandRC (env : RCEnv) (c : RCCmd) : CmdOut :=
  let r := env.run c
  if r.success then { r with stdout := jsTrim r.stdout }
  else { stdout := [], success := false, err := r.err }

/-- Observable effects of a run: executed commands and file writes. -/
inductive RCEffect where
  | exec (c : RCCmd)
  | fsWrite (file : JStr) (content : JStr)
deriving DecidableEq, Repr

/-- Commands that mutate the repository, the index or the working tree,
as opposed to the pure queries (metadata-directory tests and the
unmerged-files listing). -/
def RCCmd.isMutating : RCCmd → Bool
  | .stashPush | .checkoutOurs _ | .checkoutTheirs _ | .gitAdd _
  | .rebaseContinue | .commitNoEdit | .cherryPickContinue
  | .rebaseAbort | .mergeAbort | .cherryPickAbort => true
  | _ => false

/-- An effect is a mutation when it is a file write or a mutating
command. -/
def RCEffect.isMutation : RCEffect → Bool
  | .exec c => c.isMutating
  | .fsWrite _ _ => true

/-- `getConflictState` (resolve-conflicts.ts:47-58): the three
independent indicator checks. -/
structure ConflictState where
  inMerge : Bool
  inRebase : Bool
  inCherryPick : Bool
deriving DecidableEq, Repr

def getConflictState (env : RCEnv) : ConflictState :=
  { inMerge := (executeCommandRC env .testMergeHead).success,
    inRebase := (executeCommandRC env .testRebaseApply).success ||
      (executeCommandRC env .testRebaseMerge).success,
    inCherryPick := (executeCommandRC env .testCherryPickHead).success }

/-- `getConflictedFiles` (resolve-conflicts.ts:61-66). -/
def getConflictedFiles (env : RCEnv) : List JStr :=
  let result := executeCommandRC env .diffUnmerged
  if result.success && jsTrim result.stdout ≠ [] then
    (jsSplitOn '\n' result.stdout).filter fun f => jsTrim f ≠ []
  else []

/-- The state line of `handleStatus` (resolve-conflicts.ts:299-307):
merge is reported first, then rebase, then cherry-pick. -/
def statusStateLine (s : ConflictState) : String :=
  if s.inMerge then "Currently in merge operation"
  else if s.inRebase then "Currently in rebase operation"
  else if s.inCherryPick then "Currently in cherry-pick operation"
  else "No active merge/rebase operation"

/-- The continuation decision of `handleAutoResolve`
(resolve-conflicts.ts:515-539): rebase is checked first, then merge,
then cherry-pick. -/
def continuationChoice (s : ConflictState) : Option RCCmd :=
  if s.inRebase then some .rebaseContinue
  else if s.inMerge then some .commitNoEdit
  else if s.inCherryPick then some .cherryPickContinue
  else none

/-- The preview description of one block in the smart strategy
(resolve-conflicts.ts:473-484): only the two one-side-empty rules and
the import rule are examined; every other block is described as
requiring manual resolution. -/
def previewStrategyFor (b : ConflictBlock) : String :=
  if jsTrim b.oursContent = [] && jsTrim b.theirsContent ≠ [] then
    "Would choose theirs (ours empty)"
  else if jsTrim b.oursContent ≠ [] && jsTrim b.theirsContent = [] then
    "Would choose ours (theirs empty)"
  else if isImportBlock b.oursContent b.theirsContent then
    "Would merge imports"
  else "Would require manual resolution"

/-- All preview descriptions of a file, one per block
(resolve-conflicts.ts:473-485); the source counts the file resolved by
the length of this list. -/
def previewSmartStrategies (blocks : List ConflictBlock) : List String :=
  blocks.map previewStrategyFor

/-- `applySmartResolution` with its effects
(resolve-conflicts.ts:135-204): the file is re-read, the splice loop
runs, and the file is written back exactly when at least one block
resolved. -/
def applySmartResolutionM (env : RCEnv) (file : JStr) (blocks : List ConflictBlock) :
    Nat × List String × List RCEffect :=
  let r := applySmartLines (jsSplitOn '\n' (env.file file)) blocks
  (r.2.1, r.2.2, if r.2.1 > 0 then [.fsWrite file (jsJoin '\n' r.1)] else [])

/-- The per-file strategy switch of `handleAutoResolve`
(resolve-conflicts.ts:442-491): ours/theirs run a whole-file two-way
checkout (skipped in preview), smart parses the file and either applies
the full resolution or, in preview, lists per-block would-do
descriptions counting every block; an unknown strategy resolves
nothing. -/
def resolveOneFile (env : RCEnv) (strategy : String) (previewOnly : Bool) (file : JStr) :
    Nat × List String × List RCEffect :=
  match strategy with
  | "ours" =>
    if !previewOnly then
      let r := executeCommandRC env (.checkoutOurs file)
      if r.success then (1, ["Chose ours for entire file"], [.exec (.checkoutOurs file)])
      else (0, ["Failed: " ++ String.mk r.err], [.exec (.checkoutOurs file)])
    else (1, ["Would choose ours for entire file"], [])
  | "theirs" =>
    if !previewOnly then
      let r := executeCommandRC env (.checkoutTheirs file)
      if r.success then (1, ["Chose theirs for entire file"], [.exec (.checkoutTheirs file)])
      else (0, ["Failed: " ++ String.mk r.err], [.exec (.checkoutTheirs file)])
    else (1, ["Would choose theirs for entire file"], [])
  | "smart" =>
    if !previewOnly then
      applySmartResolutionM env file (parseConflicts (env.file file))
    else
      ((previewSmartStrategies (parseConflicts (env.file file))).length,
       previewSmartStrategies (parseConflicts (env.file file)), [])
  | other => (0, ["Unknown strategy: " ++ other], [])

/-- Accumulated run state of `handleAutoResolve`. -/
structure RunSt where
  totalResolved : Nat
  steps : List String
  warnings : List String
  details : List String
  trace : List RCEffect
deriving DecidableEq, Repr

/-- Processing of a single file inside the `handleAutoResolve` loop
(resolve-conflicts.ts:441-512): on a positive resolved count the file
counts toward the total and, outside preview, is staged with `git add`;
otherwise a warning is recorded. -/
def autoResolveFileStep (env : RCEnv) (strategy : String) (previewOnly : Bool)
    (st : RunSt) (file : JStr) : RunSt :=
  let r := resolveOneFile env strategy previewOnly file
  if r.1 > 0 then
    if !previewOnly then
      let stage := executeCommandRC env (.gitAdd file)
      { totalResolved := st.totalResolved + 1,
        steps := st.steps ++
          (if stage.success then ["Resolved and staged " ++ String.mk file] else []),
        warnings := st.warnings ++
          (if stage.success then []
           else ["Resolved " ++ String.mk file ++ " but failed to stage: " ++
             String.mk stage.err]),
        details := st.details ++
          [String.mk file ++ ": " ++ String.intercalate ", " r.2.1],
        trace := st.trace ++ r.2.2 ++ [.exec (.gitAdd file)] }
    else
      { totalResolved := st.totalResolved + 1,
        steps := st.steps ++ ["Would resolve " ++ String.mk file],
        warnings := st.warnings,
        details := st.details ++
          [String.mk file ++ ": " ++ String.intercalate ", " r.2.1],
        trace := st.trace ++ r.2.2 }
  else
    { st with
      warnings := st.warnings ++
        ["Failed to resolve " ++ String.mk file ++ ": " ++
          String.intercalate ", " r.2.1],
      trace := st.trace ++ r.2.2 }

/-- The continuation section of `handleAutoResolve`
(resolve-conflicts.ts:514-540): the four state tests run, then the
if/else-if chain picks rebase continue first, then the merge commit,
then cherry-pick continue. -/
def continuationPhase (env : RCEnv) (st : RunSt) : RunSt :=
  let s := getConflictState env
  let st' := { st with trace := st.trace ++
    [.exec .testMergeHead, .exec .testRebaseApply,
     .exec .testRebaseMerge, .exec .testCherryPickHead] }
  if s.inRebase then
    let r := executeCommandRC env .rebaseContinue
    { st' with
      trace := st'.trace ++ [.exec .rebaseContinue],
      steps := st'.steps ++ (if r.success then ["Continued rebase operation"] else []),
      warnings := st'.warnings ++
        (if r.success then []
         else ["Failed to continue rebase: " ++ String.mk r.err]) }
  else if s.inMerge then
    let r := executeCommandRC env .commitNoEdit
    { st' with
      trace := st'.trace ++ [.exec .commitNoEdit],
      steps := st'.steps ++ (if r.success then ["Completed merge operation"] else []),
      warnings := st'.warnings ++
        (if r.success then []
         else ["Failed to complete merge: " ++ String.mk r.err]) }
  else if s.inCherryPick then
    let r := executeCommandRC env .cherryPickContinue
    { st' with
      trace := st'.trace ++ [.exec .cherryPickContinue],
      steps := st'.steps ++
        (if r.success then ["Continued cherry-pick operation"] else []),
      warnings := st'.warnings ++
        (if r.success then []
         else ["Failed to continue cherry-pick: " ++ String.mk r.err]) }
  else st'

/-- `handleAutoResolve` (resolve-conflicts.ts:400-557): collect the
conflicted files (from the diff listing when none are given), push the
preamble steps, create the backup stash outside preview, resolve each
file in order, and when continuation is requested, every file resolved
and preview is off, run the suspended-operation continuation. -/
def handleAutoResolveRC (env : RCEnv) (strategy : String) (targetFiles : List JStr)
    (backupChanges continueOperation previewOnly : Bool) : RunSt :=
  let pre : List JStr × List RCEffect :=
    if targetFiles ≠ [] then (targetFiles, [])
    else (getConflictedFiles env, [.exec .diffUnmerged])
  if pre.1 = [] then
    { totalResolved := 0, steps := [], warnings := [], details := [], trace := pre.2 }
  else
    let st0 : RunSt :=
      { totalResolved := 0,
        steps := ["Auto-resolving " ++ toString pre.1.length ++
            " files using strategy " ++ strategy] ++
          (if previewOnly then ["PREVIEW MODE - No changes will be made"] else []),
        warnings := [], details := [], trace := pre.2 }
    let st1 :=
      if backupChanges && !previewOnly then
        let r := executeCommandRC env .stashPush
        { st0 with
          trace := st0.trace ++ [.exec .stashPush],
          steps := st0.steps ++
            (if r.success then ["Created backup of current changes"] else []),
          warnings := st0.warnings ++ (if r.success then [] else ["Failed to create backup"]) }
      else st0
    let st2 := pre.1.foldl (autoResolveFileStep env strategy previewOnly) st1
    if continueOperation && st2.totalResolved = pre.1.length && !previewOnly then
      continuationPhase env st2
    else st2

/-- Environment exercising the preview divergence: a single conflicted
file whose only block has hyphenated sides, so the real smart run leaves
it unresolved while the preview counts it as would-resolve. -/
def rcEnvManual : RCEnv :=
  { run := fun _ => { stdout := [], success := true, err := [] },
    file := fun _ => "<<<<<<< a\na-x\n=======\nb-y\n>>>>>>> b".toList }

/-- Environment in which every operation indicator is set at once (merge
head, rebase directory and cherry-pick head all present) and every
command succeeds. -/
def rcEnvAllStates : RCEnv :=
  { run := fun _ => { stdout := [], success := true, err := [] },
    file := fun _ => [] }

/-- Effects that are neither the merge-completion commit nor the
cherry-pick continuation. -/
def notMergeOrCherryContinuation (e : RCEffect) : Bool :=
  e ≠ .exec .commitNoEdit && e ≠ .exec .cherryPickContinue

/-! ## JavaScript parseInt and the ahead/behind computation (sync-work.ts) -/

/-- Value of a decimal digit character. -/
def decDigitVal (c : Char) : Nat := c.toNat - 48

/-- Hexadecimal digit test. -/
def isHexDigit (c : Char) : Bool :=
  c.isDigit || ('a' ≤ c && c ≤ 'f') || ('A' ≤ c && c ≤ 'F')

/-- Value of a hexadecimal digit character. -/
def hexDigitVal (c : Char) : Nat :=
  if c.isDigit then c.toNat - 48
  else if 'a' ≤ c && c ≤ 'f' then c.toNat - 87
  else c.toNat - 55

/-- Value of the longest digit run at the head of the text, or none when
that run is empty. -/
def digitRunVal (isDig : Char → Bool) (val : Char → Nat) (base : Nat) (s : JStr) :
    Option Nat :=
  let ds := s.takeWhile isDig
  if ds = [] then none
  else some (ds.foldl (fun a c => a * base + val c) 0)

/-- JavaScript `parseInt` with no radix argument: skip leading
whitespace, read an optional sign, honour a `0x`/`0X` prefix as
hexadecimal, then take the longest digit run; an empty run is NaN,
modelled as `none`.  JavaScript numbers lose precision above 2^53; the
counts handled here are far below that, so an exact integer model is
used. -/
def jsParseInt (s : JStr) : Option Int :=
  let s1 := s.dropWhile jsIsWhite
  let signAndRest : Int × JStr :=
    match s1 with
    | '-' :: r => (-1, r)
    | '+' :: r => (1, r)
    | r => (1, r)
  match signAndRest.2 with
  | '0' :: 'x' :: r =>
    (digitRunVal isHexDigit hexDigitVal 16 r).map fun n => signAndRest.1 * (n : Int)
  | '0' :: 'X' :: r =>
    (digitRunVal isHexDigit hexDigitVal 16 r).map fun n => signAndRest.1 * (n : Int)
  | r =>
    (digitRunVal Char.isDigit decDigitVal 10 r).map fun n => signAndRest.1 * (n : Int)

/-- The `parseInt(n) || 0` idiom of `getAheadBehindInfo`
(sync-work.ts:88): NaN collapses to zero (and so does an explicit
zero, which is already zero). -/
def jsParseIntOr0 (s : JStr) : Int := (jsParseInt s).getD 0

/-- Decimal value of an all-digit character list. -/
def decNat (s : JStr) : Nat := s.foldl (fun a c => a * 10 + decDigitVal c) 0

/-- The ahead/behind record of `getAheadBehindInfo` (sync-work.ts:85-92).
The source destructures the split command output as
`[behind, ahead] = stdout.split("\t").map(n => parseInt(n) || 0)`; a
missing column leaves the corresponding JavaScript binding `undefined`,
modelled as `none`. -/
structure AheadBehind where
  ahead : Option Int
  behind : Option Int
deriving DecidableEq, Repr

/-- The shell commands issued by sync_work, as a typed alphabet standing
for the command strings of the source. -/
inductive SyncCmd where
  | revParseGitDir
  | showCurrentBranch
  | branchList (branch : JStr)
  | lsRemoteHeads (branch : JStr)
  | diffUnmerged
  | statusPorcelain
  | checkoutBranch (branch : JStr)
  | fetchOrigin (branch : JStr)
  | revListCount (base branch : JStr)
  | mergeFFOnly (branch : JStr)
  | mergeNoFF (branch target : JStr)
  | rebaseOnto (branch : JStr)
  | checkoutOursFile (file : JStr)
  | checkoutTheirsFile (file : JStr)
  | addFile (file : JStr)
  | rebaseContinue
  | commitNoEdit
  | forcePushBranch (branch : JStr)
deriving DecidableEq, Repr

/-- The three commands that perform the git-level sync operation itself
(one per strategy). -/
def SyncCmd.isSyncOperation : SyncCmd → Bool
  | .mergeFFOnly _ | .mergeNoFF _ _ | .rebaseOnto _ => true
  | _ => false

/-- Oracle environment for a run of sync_work. -/
structure SEnv where
  run : SyncCmd → CmdOut

/-- `executeGitCommand` (sync-work.ts:27-42): trimmed stdout on success,
empty stdout with the error text on failure. -/
def executeGitCommand (env : SEnv) (c : SyncCmd) : CmdOut :=
  let r := env.run c
  if r.success then { r with stdout := jsTrim r.stdout }
  else { stdout := [], success := false, err := r.err }

/-- `getCurrentBranch` (sync-work.ts:45-48): null on failure. -/
def getCurrentBranch (env : SEnv) : Option JStr :=
  let r := executeGitCommand env .showCurrentBranch
  if r.success then some r.stdout else none

/-- `branchExists` (sync-work.ts:51-62). -/
def branchExists (env : SEnv) (branchName : JStr) (remote : Bool) : Bool :=
  if remote then
    let r := executeGitCommand env (.lsRemoteHeads branchName)
    r.success && (jsTrim r.stdout).length > 0
  else
    let r := executeGitCommand env (.branchList branchName)
    r.success && jsContains r.stdout branchName

/-- `hasConflicts` (sync-work.ts:65-68). -/
def hasConflictsS (env : SEnv) : Bool :=
  let r := executeGitCommand env .diffUnmerged
  r.success && (jsTrim r.stdout).length > 0

/-- `getConflictFiles` (sync-work.ts:71-76). -/
def getConflictFilesS (env : SEnv) : List JStr :=
  let r := executeGitCommand env .diffUnmerged
  if r.success && jsTrim r.stdout ≠ [] then
    (jsSplitOn '\n' r.stdout).filter fun f => jsTrim f ≠ []
  else []

/-- `isWorkingDirectoryClean` (sync-work.ts:79-82). -/
def isWorkingDirectoryCleanS (env : SEnv) : Bool :=
  let r := executeGitCommand env .statusPorcelain
  r.success && jsTrim r.stdout = []

/-- `getAheadBehindInfo` (sync-work.ts:85-92): on a successful command
with nonempty trimmed output, split on tabs, parse each column with
`parseInt(n) || 0`, and assign the first column to behind and the second
to ahead; otherwise report zero for both. -/
def getAheadBehindInfo (env : SEnv) (branch baseBranch : JStr) : AheadBehind :=
  let result := executeGitCommand env (.revListCount baseBranch branch)
  if result.success && jsTrim result.stdout ≠ [] then
    let parts := (jsSplitOn '\t' result.stdout).map jsParseIntOr0
    { behind := parts[0]?, ahead := parts[1]? }
  else { ahead := some 0, behind := some 0 }

/-- Display of a possibly undefined count, as JavaScript template
interpolation renders it. -/
def showCount : Option Int → String
  | some n => toString n
  | none => "undefined"

/-- Result of one phase of the sync flow. -/
structure SyncStepResult where
  success : Bool
  err : Option JStr
  steps : List String
  trace : List SyncCmd
deriving DecidableEq, Repr

/-- `performSync` (sync-work.ts:243-278): exactly one git operation per
strategy; fast-forward divergence is a distinct error; an unknown
strategy is rejected with a distinct error before any command executes. -/
def performSync (env : SEnv) (targetBranch withBranch : JStr) (strategy : String) :
    SyncStepResult :=
  match strategy with
  | "fast-forward" =>
    let result := executeGitCommand env (.mergeFFOnly withBranch)
    if result.success then
      { success := true, err := none,
        steps := ["Fast-forwarded " ++ String.mk targetBranch ++ " to origin/" ++
          String.mk withBranch],
        trace := [.mergeFFOnly withBranch] }
    else if jsContains result.err "not possible to fast-forward".toList then
      { success := false,
        err := some "Fast-forward not possible - branches have diverged".toList,
        steps := [], trace := [.mergeFFOnly withBranch] }
    else
      { success := false, err := some result.err, steps := [],
        trace := [.mergeFFOnly withBranch] }
  | "merge" =>
    let result := executeGitCommand env (.mergeNoFF withBranch targetBranch)
    { success := result.success,
      err := if result.success then none else some result.err,
      steps := if result.success then
        ["Merged origin/" ++ String.mk withBranch ++ " into " ++ String.mk targetBranch]
        else [],
      trace := [.mergeNoFF withBranch targetBranch] }
  | "rebase" =>
    let result := executeGitCommand env (.rebaseOnto withBranch)
    { success := result.success,
      err := if result.success then none else some result.err,
      steps := if result.success then
        ["Rebased " ++ String.mk targetBranch ++ " onto origin/" ++ String.mk withBranch]
        else [],
      trace := [.rebaseOnto withBranch] }
  | other =>
    { success := false, err := some ("Unknown strategy: ".toList ++ other.toList),
      steps := [], trace := [] }

/-- `attemptSmartResolve` (sync-work.ts:318-327): despite its name it
simply checks out the whole theirs side of the file. -/
def attemptSmartResolve (env : SEnv) (file : JStr) : CmdOut × List SyncCmd :=
  (executeGitCommand env (.checkoutTheirsFile file), [.checkoutTheirsFile file])

/-- Accumulated state of the sync auto-resolve loop. -/
structure AutoResolveSt where
  success : Bool
  resolvedCount : Nat
  steps : List String
  warnings : List String
  trace : List SyncCmd
deriving DecidableEq, Repr

/-- One file of the `handleAutoResolve` loop of sync_work
(sync-work.ts:283-313): run the per-strategy resolution command, then
stage the file; failures become warnings. -/
def syncAutoResolveStep (env : SEnv) (autoResolve : String) (st : AutoResolveSt)
    (file : JStr) : AutoResolveSt :=
  let rr : CmdOut × List SyncCmd :=
    match autoResolve with
    | "ours" => (executeGitCommand env (.checkoutOursFile file), [.checkoutOursFile file])
    | "theirs" =>
      (executeGitCommand env (.checkoutTheirsFile file), [.checkoutTheirsFile file])
    | "smart" => attemptSmartResolve env file
    | _ => ({ stdout := [], success := false,
              err := "Unknown auto-resolve strategy".toList }, [])
  if rr.1.success then
    let add := executeGitCommand env (.addFile file)
    if add.success then
      { st with
        resolvedCount := st.resolvedCount + 1,
        steps := st.steps ++ ["Auto-resolved conflict in " ++ String.mk file ++
          " using strategy " ++ autoResolve],
        trace := st.trace ++ rr.2 ++ [.addFile file] }
    else
      { st with
        warnings := st.warnings ++ ["Resolved conflict in " ++ String.mk file ++
          " but failed to stage: " ++ String.mk add.err],
        trace := st.trace ++ rr.2 ++ [.addFile file] }
  else
    { st with
      warnings := st.warnings ++ ["Failed to auto-resolve conflict in " ++
        String.mk file ++ ": " ++ String.mk rr.1.err],
      trace := st.trace ++ rr.2 }

/-- `handleAutoResolve` of sync_work (sync-work.ts:280-316): resolve
each conflicted file per the requested strategy; the overall success is
a positive resolved count. -/
def syncHandleAutoResolve (env : SEnv) (conflicts : List JStr) (autoResolve : String) :
    AutoResolveSt :=
  let st := conflicts.foldl (syncAutoResolveStep env autoResolve)
    { success := false, resolvedCount := 0, steps := [], warnings := [], trace := [] }
  { st with success := st.resolvedCount > 0 }

/-- `continueSyncOperation` (sync-work.ts:329-356): rebase continues,
merge commits, anything else (fast-forward included) needs no
continuation and reports success without a command. -/
def continueSyncOperation (env : SEnv) (strategy : String) : SyncStepResult :=
  match strategy with
  | "rebase" =>
    let r := executeGitCommand env .rebaseContinue
    { success := r.success, err := if r.success then none else some r.err,
      steps := if r.success then ["Continued rebase after conflict resolution"] else [],
      trace := [.rebaseContinue] }
  | "merge" =>
    let r := executeGitCommand env .commitNoEdit
    { success := r.success, err := if r.success then none else some r.err,
      steps := if r.success then ["Completed merge after conflict resolution"] else [],
      trace := [.commitNoEdit] }
  | _ => { success := true, err := none, steps := [], trace := [] }

/-- Overall outcome of one sync_work invocation. -/
structure SyncOutcome where
  ok : Bool
  errText : Option JStr
  manualConflicts : Bool
  conflicts : List JStr
  steps : List String
  warnings : List String
  trace : List SyncCmd
deriving DecidableEq, Repr

/-- The tail of a successful sync (sync-work.ts:198-227): after-sync
accounting, optional force push (only with commits ahead; its failure is
a warning), and the final current-branch query for the report. -/
def syncFinish (env : SEnv) (actualTarget withBranch : JStr) (strategy : String)
    (forcePush : Bool) (conflicts : List JStr) (steps : List String)
    (warnings : List String) (t : List SyncCmd) : SyncOutcome :=
  let afterSync := getAheadBehindInfo env actualTarget withBranch
  let t2 := t ++ [.revListCount withBranch actualTarget]
  let steps2 := steps ++ ["After sync: " ++ showCount afterSync.ahead ++ " ahead, " ++
    showCount afterSync.behind ++ " behind origin/" ++ String.mk withBranch]
  let aheadPos : Bool :=
    match afterSync.ahead with
    | some a => a > 0
    | none => false
  if forcePush && aheadPos then
    let fp := executeGitCommand env (.forcePushBranch actualTarget)
    { ok := true, errText := none, manualConflicts := false, conflicts := conflicts,
      steps := steps2 ++ (if fp.success then
        ["Force pushed changes to origin/" ++ String.mk actualTarget] else []),
      warnings := warnings ++ (if fp.success then [] else
        ["Failed to force push: " ++ String.mk fp.err]),
      trace := t2 ++ [.forcePushBranch actualTarget, .showCurrentBranch] }
  else
    { ok := true, errText := none, manualConflicts := false, conflicts := conflicts,
      steps := steps2, warnings := warnings, trace := t2 ++ [.showCurrentBranch] }

/-- Conflict handling and completion of one sync (sync-work.ts:162-241):
a failed strategy with unmerged files goes to optional auto-resolution
and continuation, a failed strategy without conflicts raises the error,
a success finishes with the after-sync accounting. -/
def syncConflictPhase (env : SEnv) (actualTarget withBranch : JStr) (strategy : String)
    (autoResolve : Option String) (forcePush : Bool) (syncResult : SyncStepResult)
    (steps4 : List String) (t8 : List SyncCmd) : SyncOutcome :=
  let conflictsNow := hasConflictsS env
  if !syncResult.success && conflictsNow then
    let conflicts := getConflictFilesS env
    let t9 := t8 ++ [.diffUnmerged, .diffUnmerged]
    match autoResolve with
    | some ar =>
      if conflicts.length > 0 then
        let resolveResult := syncHandleAutoResolve env conflicts ar
        let t10 := t9 ++ resolveResult.trace
        let steps5 := steps4 ++ resolveResult.steps
        let warnings5 := resolveResult.warnings
        if resolveResult.success then
          let contResult := continueSyncOperation env strategy
          let t11 := t10 ++ contResult.trace
          if !contResult.success then
            { ok := false,
              errText := some ("Failed to continue sync after conflict resolution: ".toList ++
                (contResult.err.getD [])),
              manualConflicts := false, conflicts := conflicts,
              steps := steps5, warnings := warnings5, trace := t11 }
          else
            syncFinish env actualTarget withBranch strategy forcePush
              conflicts (steps5 ++ contResult.steps) warnings5 t11
        else
          syncFinish env actualTarget withBranch strategy forcePush
            conflicts steps5 warnings5 t10
      else
        { ok := false, errText := none, manualConflicts := true,
          conflicts := conflicts, steps := steps4, warnings := [],
          trace := t9 }
    | none =>
      { ok := false, errText := none, manualConflicts := true,
        conflicts := conflicts, steps := steps4, warnings := [],
        trace := t9 }
  else if !syncResult.success then
    { ok := false, errText := some ("Sync failed: ".toList ++
        ((syncResult.err).getD [])),
      manualConflicts := false, conflicts := [], steps := steps4,
      warnings := [], trace := t8 ++ [.diffUnmerged] }
  else
    syncFinish env actualTarget withBranch strategy forcePush
      [] steps4 [] t8

/-- Fetch, before-sync accounting and strategy dispatch of one sync
(sync-work.ts:143-241): fetch the source branch, record the
ahead/behind accounting, run the strategy, then hand over to the
conflict-handling and completion phase. -/
def syncFetchPhase (env : SEnv) (actualTarget withBranch : JStr) (strategy : String)
    (autoResolve : Option String) (forcePush : Bool) (steps1 : List String)
    (t5 : List SyncCmd) : SyncOutcome :=
  let fetchResult := executeGitCommand env (.fetchOrigin withBranch)
  let t6 := t5 ++ [.fetchOrigin withBranch]
  if !fetchResult.success then
    { ok := false, errText := some ("Failed to fetch updates: ".toList ++
        fetchResult.err),
      manualConflicts := false, conflicts := [], steps := steps1,
      warnings := [], trace := t6 }
  else
    let steps2 := steps1 ++
      ["Fetched latest updates from origin/" ++ String.mk withBranch]
    let beforeSync := getAheadBehindInfo env actualTarget withBranch
    let t7 := t6 ++ [.revListCount withBranch actualTarget]
    let steps3 := steps2 ++ ["Before sync: " ++ showCount beforeSync.ahead ++
      " ahead, " ++ showCount beforeSync.behind ++ " behind origin/" ++
      String.mk withBranch]
    let syncResult := performSync env actualTarget withBranch strategy
    let t8 := t7 ++ syncResult.trace
    let steps4 := steps3 ++ syncResult.steps
    syncConflictPhase env actualTarget withBranch strategy autoResolve
      forcePush syncResult steps4 t8

/-- Validation and optional branch switch of one sync
(sync-work.ts:106-142), entered once the git-repository check passed
and the target branch has been resolved: detached-head check, local and
remote branch existence, working-tree cleanliness and checkout when a
switch is needed, then the fetch phase.  The two commands already run
at this point (the repository check and the current-branch query) head
every trace. -/
def syncValidatePhase (env : SEnv) (actualTarget withBranch : JStr) (strategy : String)
    (autoResolve : Option String) (forcePush : Bool)
    (currentBranch : Option JStr) : SyncOutcome :=
  let t1 : List SyncCmd := [.revParseGitDir, .showCurrentBranch]
  if actualTarget = [] then
    { ok := false,
      errText := some "Cannot determine target branch (detached HEAD and no branch specified)".toList,
      manualConflicts := false, conflicts := [], steps := [], warnings := [], trace := t1 }
  else
    let steps0 : List String :=
      ["Target branch: " ++ String.mk actualTarget,
       "Syncing with: " ++ String.mk withBranch,
       "Strategy: " ++ strategy]
    let existsLocal := branchExists env actualTarget false
    let t2 := t1 ++ [.branchList actualTarget]
    if !existsLocal then
      { ok := false, errText := some ("Target branch ".toList ++ actualTarget ++
          " does not exist locally".toList),
        manualConflicts := false, conflicts := [], steps := steps0, warnings := [],
        trace := t2 }
    else
      let existsRemote := branchExists env withBranch true
      let t3 := t2 ++ [.lsRemoteHeads withBranch]
      if !existsRemote then
        { ok := false, errText := some ("Source branch ".toList ++ withBranch ++
            " does not exist on remote".toList),
          manualConflicts := false, conflicts := [], steps := steps0, warnings := [],
          trace := t3 }
      else
        let switchNeeded := currentBranch ≠ some actualTarget
        let clean := isWorkingDirectoryCleanS env
        let checkoutResult := executeGitCommand env (.checkoutBranch actualTarget)
        let t4 := if switchNeeded then t3 ++ [.statusPorcelain] else t3
        if switchNeeded && !clean then
          { ok := false,
            errText := some "Working directory not clean. Commit or stash changes before switching branches.".toList,
            manualConflicts := false, conflicts := [], steps := steps0, warnings := [],
            trace := t4 }
        else
          let t5 := if switchNeeded then t4 ++ [.checkoutBranch actualTarget] else t4
          if switchNeeded && !checkoutResult.success then
            { ok := false, errText := some ("Failed to checkout target branch: ".toList ++
                checkoutResult.err),
              manualConflicts := false, conflicts := [], steps := steps0, warnings := [],
              trace := t5 }
          else
            let steps1 := steps0 ++
              (if switchNeeded then
                ["Checked out target branch: " ++ String.mk actualTarget] else [])
            syncFetchPhase env actualTarget withBranch strategy autoResolve
              forcePush steps1 t5

/-- `syncWork` (sync-work.ts:95-241): the git-repository check and the
resolution of the target branch, then the validation, fetch, dispatch
and conflict-handling phases.  Thrown errors become failure outcomes
carrying the message; the manual-conflict report is the dedicated
non-thrown return of the source. -/
def syncWork (env : SEnv) (targetBranch : Option JStr) (withBranch : JStr)
    (strategy : String) (autoResolve : Option String) (forcePush : Bool) : SyncOutcome :=
  let gitCheck := executeGitCommand env .revParseGitDir
  let t0 : List SyncCmd := [.revParseGitDir]
  if !gitCheck.success then
    { ok := false, errText := some "Not in a git repository".toList,
      manualConflicts := false, conflicts := [], steps := [], warnings := [], trace := t0 }
  else
    let currentBranch := getCurrentBranch env
    let actualTarget : JStr :=
      match targetBranch with
      | some t => if t ≠ [] then t else currentBranch.getD []
      | none => currentBranch.getD []
    syncValidatePhase env actualTarget withBranch strategy autoResolve
      forcePush currentBranch

/-- Environment in which every command succeeds with empty output. -/
def sEnvOkAll : SEnv := { run := fun _ => { stdout := [], success := true, err := [] } }

/-- Environment whose left-right count command returns the given output
with the given success flag, all other commands succeeding with empty
output. -/
def sEnvRevList (out : JStr) (succ : Bool) : SEnv :=
  { run := fun c =>
      match c with
      | .revListCount _ _ => { stdout := out, success := succ, err := "boom".toList }
      | _ => { stdout := [], success := true, err := [] } }

/-- Environment for the C8 counterexample: a repository on branch
feature, with the branch present locally and the source branch present
on the remote, no unmerged files, every command succeeding. -/
def sEnvC8 : SEnv :=
  { run := fun c =>
      match c with
      | .showCurrentBranch => { stdout := "feature".toList, success := true, err := [] }
      | .branchList _ => { stdout := "feature".toList, success := true, err := [] }
      | .lsRemoteHeads _ =>
        { stdout := "abc123 refs/heads/main".toList, success := true, err := [] }
      | _ => { stdout := [], success := true, err := [] } }

/-! ## Structural properties of the parser -/

theorem scanAux_congr : ∀ (f₁ f₂ off : Nat) (lines : List JStr),
    lines.length ≤ f₁ → lines.length ≤ f₂ →
    scanAux f₁ off lines = scanAux f₂ off lines := by
  intro f₁
  induction f₁ with
  | zero =>
    intro f₂ off lines h₁ _
    have : lines = [] := List.eq_nil_of_length_eq_zero (Nat.le_zero.mp h₁)
    subst this
    cases f₂ <;> rfl
  | succ n ih =>
    intro f₂ off lines h₁ h₂
    cases lines with
    | nil => cases f₂ <;> rfl
    | cons l rest =>
      cases f₂ with
      | zero => simp at h₂
      | succ m =>
        simp only [scanAux]
        by_cases hs : jsStartsWith l startMarker
        · simp only [hs, if_true]
          cases hm : markersOf rest with
          | some me =>
            obtain ⟨mm, ee⟩ := me
            simp only
            have hlen : rest.length ≤ n := by simp at h₁; omega
            have hlen' : rest.length ≤ m := by simp at h₂; omega
            rw [ih m (off + ee + 2) (rest.drop (ee + 1)) (by simp; omega) (by simp; omega)]
          | none =>
            simp only
            exact ih m (off + 1) rest (by simp at h₁; omega) (by simp at h₂; omega)
        · simp only [hs, if_false]
          exact ih m (off + 1) rest (by simp at h₁; omega) (by simp at h₂; omega)

/-- Unfolding equation of the scan on a nonempty line list. -/
theorem scanConflicts_cons (off : Nat) (l : JStr) (rest : List JStr) :
    scanConflicts off (l :: rest) =
      if jsStartsWith l startMarker then
        match markersOf rest with
        | some (m, e) =>
          { start := off, endIdx := off + e + 1,
            oursContent := jsJoin '\n' (rest.take m),
            theirsContent := jsJoin '\n' ((rest.drop (m + 1)).take (e - m - 1)) }
            :: scanConflicts (off + e + 2) (rest.drop (e + 1))
        | none => scanConflicts (off + 1) rest
      else scanConflicts (off + 1) rest := by
  show scanAux (rest.length + 1) off (l :: rest) = _
  simp only [scanAux, scanConflicts]
  by_cases hs : jsStartsWith l startMarker
  · simp only [hs, if_true]
    cases hm : markersOf rest with
    | some me =>
      obtain ⟨mm, ee⟩ := me
      simp only
      rw [scanAux_congr rest.length (rest.drop (ee + 1)).length (off + ee + 2)
        (rest.drop (ee + 1)) (by simp) (by simp)]
    | none =>
      rfl
  · simp only [hs, if_false]
    rfl

theorem findIdx?_some_props {α : Type} (p : α → Bool) :
    ∀ (l : List α) (s j : Nat), List.findIdx? p l s = some j →
      s ≤ j ∧ j - s < l.length ∧ ∃ x, l[j - s]? = some x ∧ p x := by
  intro l
  induction l with
  | nil => intro s j h; simp [List.findIdx?] at h
  | cons a l ih =>
    intro s j h
    rw [List.findIdx?] at h
    by_cases hp : p a
    · rw [if_pos hp] at h
      obtain rfl : s = j := by cases h; rfl
      refine ⟨Nat.le_refl _, by simp, a, ?_, hp⟩
      simp
    · rw [if_neg hp] at h
      obtain ⟨h1, h2, x, hx, hpx⟩ := ih (s + 1) j h
      refine ⟨by omega, by simp; omega, x, ?_, hpx⟩
      have : j - s = (j - (s + 1)) + 1 := by omega
      rw [this, List.getElem?_cons_succ]
      exact hx

theorem findIdx?_none_of_all {α : Type} (p : α → Bool) :
    ∀ (l : List α) (s : Nat), (∀ x ∈ l, p x = false) → List.findIdx? p l s = none := by
  intro l
  induction l with
  | nil => intro s _; rfl
  | cons a l ih =>
    intro s h
    rw [List.findIdx?, if_neg (by simp [h a (by simp)])]
    exact ih (s + 1) fun x hx => h x (by simp [hx])

theorem markersOf_some (rest : List JStr) (m e : Nat) (h : markersOf rest = some (m, e)) :
    m < e ∧ e < rest.length ∧
    (∃ x, rest[m]? = some x ∧ jsStartsWith x middleMarker) ∧
    (∃ x, rest[e]? = some x ∧ jsStartsWith x endMarker) := by
  unfold markersOf at h
  cases hm : List.findIdx? (fun l => jsStartsWith l middleMarker) rest with
  | none => rw [hm] at h; exact absurd h (by simp)
  | some m' =>
    cases he : List.findIdx? (fun l => jsStartsWith l endMarker) rest with
    | none => rw [hm, he] at h; exact absurd h (by simp)
    | some e' =>
      rw [hm, he] at h
      dsimp only at h
      by_cases hlt : m' < e'
      · rw [if_pos hlt] at h
        rw [Option.some.injEq, Prod.mk.injEq] at h
        obtain ⟨rfl, rfl⟩ := h
        obtain ⟨_, hm2, xm, hxm, hpm⟩ := findIdx?_some_props _ rest 0 _ hm
        obtain ⟨_, he2, xe, hxe, hpe⟩ := findIdx?_some_props _ rest 0 _ he
        simp only [Nat.sub_zero] at hm2 he2 hxm hxe
        exact ⟨hlt, he2, ⟨xm, hxm, hpm⟩, ⟨xe, hxe, hpe⟩⟩
      · rw [if_neg hlt] at h; exact absurd h (by simp)

theorem markersOf_none_of_no_end (rest : List JStr)
    (h : ∀ x ∈ rest, jsStartsWith x endMarker = false) : markersOf rest = none := by
  unfold markersOf
  rw [findIdx?_none_of_all _ rest 0 h]
  cases List.findIdx? (fun l => jsStartsWith l middleMarker) rest <;> rfl

theorem BlockProps_shift (lines : List JStr) (off d : Nat) (b : ConflictBlock)
    (hd : d ≤ lines.length) (h : BlockProps (lines.drop d) (off + d) b) :
    BlockProps lines off b := by
  obtain ⟨h1, h2, h3, m, hm1, hm2, ⟨xs, hxs, hps⟩, ⟨xm, hxm, hpm⟩, ⟨xe, hxe, hpe⟩, ho, ht⟩ := h
  have hlen : (lines.drop d).length = lines.length - d := by simp
  refine ⟨by omega, h2, by omega, m, hm1, hm2, ⟨xs, ?_, hps⟩, ⟨xm, ?_, hpm⟩,
    ⟨xe, ?_, hpe⟩, ?_, ?_⟩
  · rw [show b.start - off = d + (b.start - (off + d)) from by omega, ← List.getElem?_drop]
    exact hxs
  · rw [show m - off = d + (m - (off + d)) from by omega, ← List.getElem?_drop]
    exact hxm
  · rw [show b.endIdx - off = d + (b.endIdx - (off + d)) from by omega, ← List.getElem?_drop]
    exact hxe
  · rw [ho, List.drop_drop,
      show d + (b.start - (off + d) + 1) = b.start - off + 1 from by omega]
  · rw [ht, List.drop_drop,
      show d + (m - (off + d) + 1) = m - off + 1 from by omega]

theorem scanAux_mem_props : ∀ (fuel off : Nat) (lines : List JStr),
    lines.length ≤ fuel → ∀ b ∈ scanAux fuel off lines, BlockProps lines off b := by
  intro fuel
  induction fuel with
  | zero => intro off lines _ b hb; simp [scanAux] at hb
  | succ n ih =>
    intro off lines h b hb
    cases lines with
    | nil => simp [scanAux] at hb
    | cons l rest =>
      have hlen : rest.length ≤ n := by simp at h; omega
      simp only [scanAux] at hb
      by_cases hs : jsStartsWith l startMarker
      · rw [if_pos hs] at hb
        cases hmk : markersOf rest with
        | some me =>
          obtain ⟨m0, e0⟩ := me
          rw [hmk] at hb
          obtain ⟨hlt, hbound, ⟨xm, hxm, hpm⟩, ⟨xe, hxe, hpe⟩⟩ :=
            markersOf_some rest m0 e0 hmk
          rcases List.mem_cons.mp hb with rfl | hb'
          · unfold BlockProps
            dsimp only
            refine ⟨Nat.le_refl _, by omega, by simp; omega, off + m0 + 1,
              by omega, by omega, ⟨l, by simp, hs⟩, ⟨xm, ?_, hpm⟩, ⟨xe, ?_, hpe⟩, ?_, ?_⟩
            · rw [show off + m0 + 1 - off = m0 + 1 from by omega, List.getElem?_cons_succ]
              exact hxm
            · rw [show off + e0 + 1 - off = e0 + 1 from by omega, List.getElem?_cons_succ]
              exact hxe
            · rw [show off - off + 1 = 1 from by omega,
                show off + m0 + 1 - off - 1 = m0 from by omega,
                List.drop_one, List.tail_cons]
            · rw [show off + m0 + 1 - off + 1 = (m0 + 1) + 1 from by omega,
                show off + e0 + 1 - (off + m0 + 1) - 1 = e0 - m0 - 1 from by omega,
                List.drop_succ_cons]
          · have hd : e0 + 2 ≤ (l :: rest).length := by simp; omega
            refine BlockProps_shift (l :: rest) off (e0 + 2) b hd ?_
            have hdrop : (l :: rest).drop (e0 + 2) = rest.drop (e0 + 1) := by
              rw [show e0 + 2 = (e0 + 1) + 1 from rfl, List.drop_succ_cons]
            rw [hdrop]
            have : off + (e0 + 2) = off + e0 + 2 := by omega
            rw [this]
            exact ih (off + e0 + 2) (rest.drop (e0 + 1)) (by simp; omega) b hb'
        | none =>
          rw [hmk] at hb
          refine BlockProps_shift (l :: rest) off 1 b (by simp) ?_
          rw [List.drop_one, List.tail_cons]
          exact ih (off + 1) rest hlen b hb
      · rw [if_neg hs] at hb
        refine BlockProps_shift (l :: rest) off 1 b (by simp) ?_
        rw [List.drop_one, List.tail_cons]
        exact ih (off + 1) rest hlen b hb

theorem scanAux_start_ge : ∀ (fuel off : Nat) (lines : List JStr),
    ∀ b ∈ scanAux fuel off lines, off ≤ b.start := by
  intro fuel
  induction fuel with
  | zero => intro off lines b hb; simp [scanAux] at hb
  | succ n ih =>
    intro off lines b hb
    cases lines with
    | nil => simp [scanAux] at hb
    | cons l rest =>
      simp only [scanAux] at hb
      by_cases hs : jsStartsWith l startMarker
      · rw [if_pos hs] at hb
        cases hmk : markersOf rest with
        | some me =>
          obtain ⟨m0, e0⟩ := me
          rw [hmk] at hb
          rcases List.mem_cons.mp hb with rfl | hb'
          · exact Nat.le_refl _
          · have := ih (off + e0 + 2) (rest.drop (e0 + 1)) b hb'
            omega
        | none =>
          rw [hmk] at hb
          have := ih (off + 1) rest b hb
          omega
      · rw [if_neg hs] at hb
        have := ih (off + 1) rest b hb
        omega

theorem scanAux_sorted : ∀ (fuel off : Nat) (lines : List JStr),
    List.Pairwise (fun a b => a.endIdx < b.start) (scanAux fuel off lines) := by
  intro fuel
  induction fuel with
  | zero => intro off lines; simp [scanAux]
  | succ n ih =>
    intro off lines
    cases lines with
    | nil => simp [scanAux]
    | cons l rest =>
      simp only [scanAux]
      by_cases hs : jsStartsWith l startMarker
      · rw [if_pos hs]
        cases hmk : markersOf rest with
        | some me =>
          obtain ⟨m0, e0⟩ := me
          simp only
          refine List.Pairwise.cons ?_ (ih (off + e0 + 2) (rest.drop (e0 + 1)))
          intro b hb
          have := scanAux_start_ge n (off + e0 + 2) (rest.drop (e0 + 1)) b hb
          simp only
          omega
        | none => exact ih (off + 1) rest
      · rw [if_neg hs]
        exact ih (off + 1) rest

theorem scanAux_length_eq : ∀ (fuel off : Nat) (lines : List JStr),
    (scanAux fuel off lines).length = regionCountAux fuel lines := by
  intro fuel
  induction fuel with
  | zero => intro off lines; rfl
  | succ n ih =>
    intro off lines
    cases lines with
    | nil => rfl
    | cons l rest =>
      simp only [scanAux, regionCountAux]
      by_cases hs : jsStartsWith l startMarker
      · rw [if_pos hs, if_pos hs]
        cases hmk : markersOf rest with
        | some me =>
          obtain ⟨m0, e0⟩ := me
          simp only [List.length_cons, ih (off + e0 + 2) (rest.drop (e0 + 1))]
          omega
        | none => exact ih (off + 1) rest
      · rw [if_neg hs, if_neg hs]
        exact ih (off + 1) rest

theorem scanAux_eq_nil_of_no_end : ∀ (fuel off : Nat) (lines : List JStr),
    (∀ x ∈ lines, jsStartsWith x endMarker = false) → scanAux fuel off lines = [] := by
  intro fuel
  induction fuel with
  | zero => intro off lines _; rfl
  | succ n ih =>
    intro off lines h
    cases lines with
    | nil => rfl
    | cons l rest =>
      have hrest : ∀ x ∈ rest, jsStartsWith x endMarker = false :=
        fun x hx => h x (by simp [hx])
      simp only [scanAux]
      rw [markersOf_none_of_no_end rest hrest]
      by_cases hs : jsStartsWith l startMarker
      · rw [if_pos hs]
        exact ih (off + 1) rest hrest
      · rw [if_neg hs]
        exact ih (off + 1) rest hrest

example : parseConflicts "a\n<<<<<<< x\nb\n=======\nc\n>>>>>>> y\nd".toList =
    [{ start := 1, endIdx := 5, oursContent := "b".toList, theirsContent := "c".toList }] := by
  decide

example : parseConflicts "<<<<<<< x\nb\nc".toList = [] := by decide

example : smartResolution "a".toList "b".toList =
    ("a\nb".toList, "combined additions") := by decide

/-! ## Claim C2: the parser returns exactly the well-formed regions -/

/-- C2: for every line sequence, the parser returns exactly as many blocks
as there are well-formed conflict regions; the blocks come in document
order (their marker spans are strictly increasing and disjoint); every
block has `start < endIdx`, its start, middle and end lines carry the
respective markers, and its two sides are the newline-joins of the line
ranges strictly between the markers; and when no end-marker line exists
at all (in particular for a dangling start marker before end of file) no
block is produced — the scan just moves past the dangling marker. -/
theorem c2_parse_wellformed_regions (lines : List JStr) :
    (scanConflicts 0 lines).length = wellFormedRegionCount lines
    ∧ List.Pairwise (fun a b => a.endIdx < b.start) (scanConflicts 0 lines)
    ∧ (∀ b ∈ scanConflicts 0 lines, BlockProps lines 0 b)
    ∧ ((∀ x ∈ lines, jsStartsWith x endMarker = false) → scanConflicts 0 lines = []) :=
  ⟨scanAux_length_eq lines.length 0 lines,
   scanAux_sorted lines.length 0 lines,
   fun b hb => scanAux_mem_props lines.length 0 lines (Nat.le_refl _) b hb,
   fun h => scanAux_eq_nil_of_no_end lines.length 0 lines h⟩

/-- Witness for C2 at concrete inputs: the single block of a two-sided
conflict file satisfies the block invariant, and a file with a dangling
start marker parses to zero blocks. -/
theorem c2_parse_wellformed_regions_witness :
    BlockProps (jsSplitOn '\n' "a\n<<<<<<< x\nb\n=======\nc\n>>>>>>> y\nd".toList) 0
      { start := 1, endIdx := 5, oursContent := "b".toList, theirsContent := "c".toList }
    ∧ scanConflicts 0 (jsSplitOn '\n' "<<<<<<< dangling\nfoo".toList) = [] :=
  ⟨(c2_parse_wellformed_regions _).2.2.1 _ (by decide),
   (c2_parse_wellformed_regions _).2.2.2 (by decide)⟩

/-! ## Claim C3: classification precedence -/

/-- C3: classification of a block is a deterministic function of its two
sides that applies the rule chain in fixed precedence order, the first
matching rule winning; in particular, whenever the ours side is
trim-empty and the theirs side is not, the outcome is rule 1 — theirs
with category `theirs (ours empty)` — irrespective of any later rule
(such as the version-conflict rule) also matching. -/
theorem c3_classification_precedence :
    (∀ ours theirs : JStr,
      smartResolution ours theirs = firstRule ([], "") (classifierRules ours theirs))
    ∧ (∀ ours theirs : JStr, jsTrim ours = [] → jsTrim theirs ≠ [] →
        smartResolution ours theirs = (theirs, "theirs (ours empty)")) := by
  constructor
  · intro o t
    rfl
  · intro o t h1 h2
    unfold smartResolution
    rw [if_pos (by simp [h1, h2])]

/-- Witness for C3: an empty ours side against a theirs side that also
contains a version token is classified by rule 1, not by the version
rule. -/
theorem c3_classification_precedence_witness :
    jsTrim "".toList = ([] : JStr) ∧ jsTrim "version \"1.2.3\"".toList ≠ ([] : JStr) ∧
    smartResolution "".toList "version \"1.2.3\"".toList =
      ("version \"1.2.3\"".toList, "theirs (ours empty)") :=
  ⟨by decide, by decide,
   c3_classification_precedence.2 "".toList "version \"1.2.3\"".toList (by decide) (by decide)⟩

/-! ## Claim C9: the combined-additions rule -/

/-- Counterexample to C9 as stated: the ours side `"a\n\n\n\n\nb"` has
exactly two non-blank lines (at most five) and neither side contains a
`delete` keyword or any `-` character, so by the claim the block should
be classified as combined additions once rules 1-5 fail; but the code
counts all lines of the trimmed text (six here, including the blank
interior lines), rejects `isSimpleAddition`, and classifies the block as
needing manual resolution (empty resolution and category). -/
theorem c9_counterexample :
    ((jsSplitOn '\n' (jsTrim "a\n\n\n\n\nb".toList)).filter
        (fun l => jsTrim l ≠ [])).length = 2
    ∧ jsContains "a\n\n\n\n\nb".toList "delete".toList = false
    ∧ jsContains "a\n\n\n\n\nb".toList "-".toList = false
    ∧ jsContains "c".toList "delete".toList = false
    ∧ jsContains "c".toList "-".toList = false
    ∧ (jsTrim "a\n\n\n\n\nb".toList ≠ [] ∧ jsTrim "c".toList ≠ [])
    ∧ jsContains "a\n\n\n\n\nb".toList "c".toList = false
    ∧ jsContains "c".toList "a\n\n\n\n\nb".toList = false
    ∧ isImportBlock "a\n\n\n\n\nb".toList "c".toList = false
    ∧ isSimpleAddition "a\n\n\n\n\nb".toList "c".toList = false
    ∧ smartResolution "a\n\n\n\n\nb".toList "c".toList = ([], "") := by
  decide

/-- C9 (amended): when rules 1-5 do not match, a block is classified as
combined additions exactly when `isSimpleAddition` holds — each side
trimmed splits into at most five lines (all lines counted, including
blank interior lines, not only non-blank ones) and neither raw side
contains the substring `delete` or the character `-` anywhere — and the
resolution is then ours-text, a newline, then theirs-text. -/
theorem c9_combined_additions_iff (ours theirs : JStr)
    (h1 : ¬(jsTrim ours = [] ∧ jsTrim theirs ≠ []))
    (h2 : ¬(jsTrim ours ≠ [] ∧ jsTrim theirs = []))
    (h3 : jsContains ours theirs = false)
    (h4 : jsContains theirs ours = false)
    (h5 : isImportBlock ours theirs = false) :
    ((smartResolution ours theirs).2 = "combined additions"
      ↔ isSimpleAddition ours theirs = true)
    ∧ (isSimpleAddition ours theirs = true →
        smartResolution ours theirs = (ours ++ '\n' :: theirs, "combined additions")) := by
  unfold smartResolution
  rw [if_neg (by simpa using h1), if_neg (by simpa using h2),
    if_neg (by simp [h3]), if_neg (by simp [h4]), if_neg (by simp [h5])]
  by_cases h6 : isSimpleAddition ours theirs
  · rw [if_pos h6]
    exact ⟨by simp [h6], fun _ => rfl⟩
  · rw [if_neg h6]
    refine ⟨⟨fun hc => ?_, fun hc => absurd hc (by simp [h6])⟩,
      fun hc => absurd hc (by simp [h6])⟩
    by_cases h7 : isVersionConflict ours theirs
    · rw [if_pos h7] at hc
      simp at hc
    · rw [if_neg h7] at hc
      simp at hc

/-- Witness for C9 (amended) at a concrete block: sides `"a"` and `"b"`
fail rules 1-5, satisfy `isSimpleAddition`, and resolve to `"a\nb"` with
category combined additions. -/
theorem c9_combined_additions_iff_witness :
    isSimpleAddition "a".toList "b".toList = true
    ∧ smartResolution "a".toList "b".toList = ("a\nb".toList, "combined additions") :=
  ⟨by decide,
   (c9_combined_additions_iff "a".toList "b".toList (by decide) (by decide) (by decide)
      (by decide) (by decide)).2 (by decide)⟩

/-! ## Split/join algebra and splice lemmas (for claim C4) -/

theorem jsSplitOn_ne_nil (sep : Char) : ∀ s : JStr, jsSplitOn sep s ≠ [] := by
  intro s
  induction s with
  | nil => simp [jsSplitOn]
  | cons c cs ih =>
    simp only [jsSplitOn]
    cases h : jsSplitOn sep cs with
    | nil => exact absurd h ih
    | cons r rs => by_cases hc : c = sep <;> simp [hc]

theorem mem_jsSplitOn_no_sep (sep : Char) :
    ∀ (s x : JStr), x ∈ jsSplitOn sep s → sep ∉ x := by
  intro s
  induction s with
  | nil =>
    intro x hx
    simp [jsSplitOn] at hx
    simp [hx]
  | cons c cs ih =>
    intro x hx
    simp only [jsSplitOn] at hx
    cases h : jsSplitOn sep cs with
    | nil => exact absurd h (jsSplitOn_ne_nil sep cs)
    | cons r rs =>
      rw [h] at hx
      dsimp only at hx
      by_cases hc : c = sep
      · rw [if_pos hc] at hx
        rcases List.mem_cons.mp hx with rfl | hx'
        · simp
        · exact ih x (h ▸ hx')
      · rw [if_neg hc] at hx
        rcases List.mem_cons.mp hx with rfl | hx'
        · have hr : sep ∉ r := ih r (h ▸ List.mem_cons_self r rs)
          simp [hc, hr]
          intro he
          exact absurd he.symm hc
        · exact ih x (h ▸ List.mem_cons.mpr (Or.inr hx'))

theorem jsSplitOn_eq_single (sep : Char) :
    ∀ x : JStr, sep ∉ x → jsSplitOn sep x = [x] := by
  intro x
  induction x with
  | nil => intro _; rfl
  | cons c cs ih =>
    intro h
    have hc : c ≠ sep := fun he => h (he ▸ List.mem_cons_self c cs)
    have hcs : sep ∉ cs := fun hm => h (List.mem_cons.mpr (Or.inr hm))
    simp only [jsSplitOn, ih hcs]
    rw [if_neg (by simpa using fun he => hc he)]

theorem jsSplitOn_append (sep : Char) :
    ∀ (a b : JStr), jsSplitOn sep (a ++ sep :: b) = jsSplitOn sep a ++ jsSplitOn sep b := by
  intro a b
  induction a with
  | nil =>
    simp only [List.nil_append, jsSplitOn]
    cases h : jsSplitOn sep b with
    | nil => exact absurd h (jsSplitOn_ne_nil sep b)
    | cons r rs => simp
  | cons c cs ih =>
    show (match jsSplitOn sep (cs ++ sep :: b) with
      | [] => []
      | r :: rs => if c = sep then [] :: r :: rs else (c :: r) :: rs) =
      jsSplitOn sep (c :: cs) ++ jsSplitOn sep b
    rw [ih]
    cases h : jsSplitOn sep cs with
    | nil => exact absurd h (jsSplitOn_ne_nil sep cs)
    | cons r rs =>
      have h2 : jsSplitOn sep (c :: cs) =
          if c = sep then [] :: r :: rs else (c :: r) :: rs := by
        show (match jsSplitOn sep cs with
          | [] => []
          | r :: rs => if c = sep then [] :: r :: rs else (c :: r) :: rs) = _
        rw [h]
      rw [h2]
      by_cases hc : c = sep
      · simp [hc]
      · simp [hc]

theorem jsSplitOn_jsJoin (sep : Char) :
    ∀ xs : List JStr, xs ≠ [] →
      jsSplitOn sep (jsJoin sep xs) = (xs.map (jsSplitOn sep)).flatten := by
  intro xs
  induction xs with
  | nil => intro h; exact absurd rfl h
  | cons x ys ih =>
    intro _
    cases ys with
    | nil => simp [jsJoin]
    | cons y zs =>
      have hj : jsJoin sep (x :: y :: zs) = x ++ sep :: jsJoin sep (y :: zs) := rfl
      rw [hj, jsSplitOn_append, ih (by simp)]
      simp

theorem scanAux_eq_nil_of_no_start : ∀ (fuel off : Nat) (lines : List JStr),
    (∀ x ∈ lines, jsStartsWith x startMarker = false) → scanAux fuel off lines = [] := by
  intro fuel
  induction fuel with
  | zero => intro off lines _; rfl
  | succ n ih =>
    intro off lines h
    cases lines with
    | nil => rfl
    | cons l rest =>
      simp only [scanAux]
      rw [if_neg (by simp [h l (by simp)])]
      exact ih (off + 1) rest fun x hx => h x (by simp [hx])

theorem segsAbs_ne_nil (off : Nat) (ls : List JStr) (brs : List (ConflictBlock × JStr))
    (h : ls ≠ []) : segsAbs off ls brs ≠ [] := by
  cases brs with
  | nil => exact h
  | cons p bs =>
    obtain ⟨b, r⟩ := p
    simp [segsAbs]

theorem segsAbs_take (off k : Nat) (ls : List JStr) (brs : List (ConflictBlock × JStr))
    (hk : ∀ p ∈ brs, k ≤ p.1.start)
    (hb : ∀ p ∈ brs, p.1.start < p.1.endIdx ∧ p.1.endIdx < ls.length) :
    (segsAbs off ls brs).take (k - off) = ls.take (k - off) := by
  cases brs with
  | nil => rfl
  | cons p bs =>
    obtain ⟨b, r⟩ := p
    simp only [segsAbs]
    have h1 : k ≤ b.start := hk (b, r) (by simp)
    have h2 := hb (b, r) (by simp)
    simp only at h2
    rw [List.take_append_eq_append_take, List.take_append_eq_append_take, List.take_take,
      List.length_append, List.length_take,
      show min (k - off) (b.start - off) = k - off from by omega,
      show k - off - min (b.start - off) ls.length = 0 from by omega,
      show k - off - (min (b.start - off) ls.length + [r].length) = 0 from by omega]
    simp

theorem segsAbs_drop (off k : Nat) (ls : List JStr) (brs : List (ConflictBlock × JStr))
    (hoff : off ≤ k)
    (hk : ∀ p ∈ brs, k ≤ p.1.start)
    (hb : ∀ p ∈ brs, p.1.start < p.1.endIdx ∧ p.1.endIdx < ls.length) :
    (segsAbs off ls brs).drop (k - off) = segsAbs k (ls.drop (k - off)) brs := by
  cases brs with
  | nil => rfl
  | cons p bs =>
    obtain ⟨b, r⟩ := p
    simp only [segsAbs]
    have h1 : k ≤ b.start := hk (b, r) (by simp)
    have h2 := hb (b, r) (by simp)
    simp only at h2
    rw [List.drop_append_eq_append_drop, List.drop_append_eq_append_drop,
      List.length_take, List.length_append, List.length_take,
      show k - off - min (b.start - off) ls.length = 0 from by omega,
      show k - off - (min (b.start - off) ls.length + [r].length) = 0 from by omega,
      List.drop_take,
      show b.start - off - (k - off) = b.start - k from by omega,
      List.drop_drop,
      show k - off + (b.endIdx + 1 - k) = b.endIdx + 1 - off from by omega]
    simp

theorem spliceAll_eq_segsAbs : ∀ (brs : List (ConflictBlock × JStr)) (ls : List JStr),
    List.Pairwise (fun a b => a.1.endIdx < b.1.start) brs →
    (∀ p ∈ brs, p.1.start < p.1.endIdx ∧ p.1.endIdx < ls.length) →
    spliceAll ls brs = segsAbs 0 ls brs := by
  intro brs
  induction brs with
  | nil => intro ls _ _; rfl
  | cons p bs ih =>
    intro ls hp hbnd
    obtain ⟨b, r⟩ := p
    obtain ⟨hrel, hp'⟩ := List.pairwise_cons.mp hp
    have hbthis := hbnd (b, r) (by simp)
    simp only at hbthis
    have hbnd' : ∀ q ∈ bs, q.1.start < q.1.endIdx ∧ q.1.endIdx < ls.length :=
      fun q hq => hbnd q (by simp [hq])
    have hstep : spliceAll ls ((b, r) :: bs) = spliceLines (spliceAll ls bs) b r := rfl
    rw [hstep, ih ls hp' hbnd']
    unfold spliceLines
    have htk : (segsAbs 0 ls bs).take b.start = ls.take b.start := by
      have := segsAbs_take 0 b.start ls bs
        (fun q hq => by
          have h3 := hrel q hq
          simp only at h3
          have h4 := hbnd' q hq
          omega)
        hbnd'
      simpa using this
    have hdr : (segsAbs 0 ls bs).drop (b.endIdx + 1) =
        segsAbs (b.endIdx + 1) (ls.drop (b.endIdx + 1)) bs := by
      have := segsAbs_drop 0 (b.endIdx + 1) ls bs (Nat.zero_le _)
        (fun q hq => by
          have h3 := hrel q hq
          simp only at h3
          omega)
        hbnd'
      simpa using this
    rw [htk, hdr]
    simp [segsAbs]

theorem segsAbs_mem : ∀ (brs : List (ConflictBlock × JStr)) (off : Nat) (ls : List JStr)
    (x : JStr),
    (∀ p ∈ brs, off ≤ p.1.start ∧ p.1.start < p.1.endIdx) →
    List.Pairwise (fun a b => a.1.endIdx < b.1.start) brs →
    x ∈ segsAbs off ls brs →
    (∃ p ∈ brs, x = p.2) ∨
      ∃ j, ls[j]? = some x ∧ outsideSpans (brs.map Prod.fst) (off + j) := by
  intro brs
  induction brs with
  | nil =>
    intro off ls x _ _ hx
    right
    obtain ⟨n, hn, rfl⟩ := List.mem_iff_getElem.mp hx
    exact ⟨n, List.getElem?_eq_getElem hn, by simp [outsideSpans]⟩
  | cons p bs ih =>
    intro off ls x hfacts hp hx
    obtain ⟨b, r⟩ := p
    obtain ⟨hrel, hp'⟩ := List.pairwise_cons.mp hp
    have hbfact := hfacts (b, r) (by simp)
    simp only at hbfact
    simp only [segsAbs, List.mem_append] at hx
    rcases hx with (hx1 | hx2) | hx3
    · right
      obtain ⟨n, hn, rfl⟩ := List.mem_iff_getElem.mp hx1
      have hn' : n < b.start - off ∧ n < ls.length := by
        simp [List.length_take] at hn
        omega
      refine ⟨n, ?_, ?_⟩
      · rw [List.getElem_take]
        exact List.getElem?_eq_getElem hn'.2
      · intro c hc
        simp only [List.map_cons, List.mem_cons] at hc
        rcases hc with rfl | hc'
        · left; omega
        · obtain ⟨q, hq, rfl⟩ := List.mem_map.mp hc'
          have h3 := hrel q hq
          simp only at h3
          left
          omega
    · left
      exact ⟨(b, r), by simp, by simpa using hx2⟩
    · have hfacts' : ∀ q ∈ bs, b.endIdx + 1 ≤ q.1.start ∧ q.1.start < q.1.endIdx :=
        fun q hq => ⟨by
          have h3 := hrel q hq
          simp only at h3
          omega, (hfacts q (by simp [hq])).2⟩
      rcases ih (b.endIdx + 1) (ls.drop (b.endIdx + 1 - off)) x hfacts' hp' hx3 with
        h | ⟨j', hj', hout'⟩
      · left
        obtain ⟨q, hq, hxq⟩ := h
        exact ⟨q, by simp [hq], hxq⟩
      · right
        rw [List.getElem?_drop] at hj'
        refine ⟨b.endIdx + 1 - off + j', hj', ?_⟩
        intro c hc
        simp only [List.map_cons, List.mem_cons] at hc
        rcases hc with rfl | hc'
        · right; omega
        · rcases hout' c hc' with h' | h'
          · left
            omega
          · right
            omega

theorem applySmartLines_all_resolved : ∀ (blocks : List ConflictBlock) (lines : List JStr),
    (∀ b ∈ blocks, (smartResolution b.oursContent b.theirsContent).1 ≠ []) →
    (applySmartLines lines blocks).1 = spliceAll lines (blockResolutions blocks)
    ∧ (applySmartLines lines blocks).2.1 = blocks.length := by
  intro blocks
  induction blocks with
  | nil => intro lines _; exact ⟨rfl, rfl⟩
  | cons b bs ih =>
    intro lines h
    have hb : (smartResolution b.oursContent b.theirsContent).1 ≠ [] := h b (by simp)
    have hbs := ih lines fun q hq => h q (by simp [hq])
    have hstep : applySmartLines lines (b :: bs) =
        if (smartResolution b.oursContent b.theirsContent).1 ≠ [] then
          (spliceLines (applySmartLines lines bs).1 b
            (smartResolution b.oursContent b.theirsContent).1,
           (applySmartLines lines bs).2.1 + 1,
           (applySmartLines lines bs).2.2 ++ ["Line " ++ toString (b.start + 1) ++ ": " ++
             (smartResolution b.oursContent b.theirsContent).2])
        else applySmartLines lines bs := rfl
    rw [hstep, if_pos hb]
    refine ⟨?_, by simp [hbs.2]⟩
    simp only
    rw [hbs.1]
    rfl

/-! ## Claim C4: resolving every block of a file -/

/-- Counterexample to C4 as stated: in `c4content` the single conflict
block is automatically resolvable (combined additions), so all blocks of
the file are resolved and the file is rewritten; but the resolution text
itself starts with a conflict start-marker line and stray middle/end
marker lines sit outside the block span, so the rewritten content still
contains conflict markers and re-parsing it yields one block, not zero. -/
theorem c4_counterexample :
    (parseConflicts c4content).length = 1
    ∧ (∀ b ∈ parseConflicts c4content,
        (smartResolution b.oursContent b.theirsContent).1 ≠ [])
    ∧ (applySmartContent c4content (parseConflicts c4content)).2.1 = 1
    ∧ parseConflicts (applySmartContent c4content (parseConflicts c4content)).1 =
        [{ start := 0, endIdx := 3, oursContent := "b".toList, theirsContent := [] }] := by
  decide

/-- C4 (amended): when every block of a file parses out resolvable, the
rewrite resolves all of them, and processing from the last block to the
first is equivalent to replacing all marker spans simultaneously (the
recorded line offsets of earlier blocks stay valid); provided
additionally that no line of any resolution text and no line outside
the marker spans begins with a conflict start marker, the rewritten
content re-parses to zero blocks. -/
theorem c4_full_resolution (content : JStr)
    (hres : ∀ b ∈ parseConflicts content,
        (smartResolution b.oursContent b.theirsContent).1 ≠ [])
    (hsafe : ∀ b ∈ parseConflicts content,
        ∀ x ∈ jsSplitOn '\n' (smartResolution b.oursContent b.theirsContent).1,
          jsStartsWith x startMarker = false)
    (houtside : ∀ j, j < (jsSplitOn '\n' content).length →
        outsideSpans (parseConflicts content) j →
        jsStartsWith ((jsSplitOn '\n' content).getD j []) startMarker = false) :
    (applySmartLines (jsSplitOn '\n' content) (parseConflicts content)).2.1 =
      (parseConflicts content).length
    ∧ (applySmartLines (jsSplitOn '\n' content) (parseConflicts content)).1 =
        segsAbs 0 (jsSplitOn '\n' content) (blockResolutions (parseConflicts content))
    ∧ parseConflicts (jsJoin '\n'
        (applySmartLines (jsSplitOn '\n' content) (parseConflicts content)).1) = [] := by
  have hlines : parseConflicts content = scanConflicts 0 (jsSplitOn '\n' content) := rfl
  obtain ⟨hsplice, hcount⟩ :=
    applySmartLines_all_resolved (parseConflicts content) (jsSplitOn '\n' content) hres
  have hsorted : List.Pairwise (fun a b => a.endIdx < b.start) (parseConflicts content) :=
    scanAux_sorted _ 0 _
  have hbounds : ∀ b ∈ parseConflicts content,
      b.start < b.endIdx ∧ b.endIdx < (jsSplitOn '\n' content).length := by
    intro b hb
    have hP := scanAux_mem_props (jsSplitOn '\n' content).length 0
      (jsSplitOn '\n' content) (Nat.le_refl _) b hb
    obtain ⟨_, h2, h3, _⟩ := hP
    exact ⟨h2, by omega⟩
  have hpairs : List.Pairwise (fun a b => a.1.endIdx < b.1.start)
      (blockResolutions (parseConflicts content)) := by
    unfold blockResolutions
    exact List.Pairwise.map _ (fun a b h => h) hsorted
  have hpbounds : ∀ p ∈ blockResolutions (parseConflicts content),
      p.1.start < p.1.endIdx ∧ p.1.endIdx < (jsSplitOn '\n' content).length := by
    intro p hp
    obtain ⟨b, hb, rfl⟩ := List.mem_map.mp hp
    exact hbounds b hb
  have hseg : spliceAll (jsSplitOn '\n' content) (blockResolutions (parseConflicts content)) =
      segsAbs 0 (jsSplitOn '\n' content) (blockResolutions (parseConflicts content)) :=
    spliceAll_eq_segsAbs _ _ hpairs hpbounds
  refine ⟨hcount, hsplice.trans hseg, ?_⟩
  have hpost : (applySmartLines (jsSplitOn '\n' content) (parseConflicts content)).1 =
      segsAbs 0 (jsSplitOn '\n' content) (blockResolutions (parseConflicts content)) :=
    hsplice.trans hseg
  rw [hpost]
  have hnn : segsAbs 0 (jsSplitOn '\n' content)
      (blockResolutions (parseConflicts content)) ≠ [] :=
    segsAbs_ne_nil _ _ _ (jsSplitOn_ne_nil '\n' content)
  rw [show parseConflicts (jsJoin '\n' (segsAbs 0 (jsSplitOn '\n' content)
        (blockResolutions (parseConflicts content)))) =
      scanConflicts 0 (jsSplitOn '\n' (jsJoin '\n' (segsAbs 0 (jsSplitOn '\n' content)
        (blockResolutions (parseConflicts content))))) from rfl,
    jsSplitOn_jsJoin '\n' _ hnn]
  apply scanAux_eq_nil_of_no_start
  intro x hx
  obtain ⟨piece, hpiece, hxp⟩ := List.mem_flatten.mp hx
  obtain ⟨y, hy, rfl⟩ := List.mem_map.mp hpiece
  have hyfacts : (∀ p ∈ blockResolutions (parseConflicts content),
      0 ≤ p.1.start ∧ p.1.start < p.1.endIdx) := by
    intro p hp
    exact ⟨Nat.zero_le _, (hpbounds p hp).1⟩
  rcases segsAbs_mem (blockResolutions (parseConflicts content)) 0
      (jsSplitOn '\n' content) y hyfacts hpairs hy with hres' | ⟨j, hj, hout⟩
  · obtain ⟨p, hp, rfl⟩ := hres'
    obtain ⟨b, hb, rfl⟩ := List.mem_map.mp hp
    exact hsafe b hb x hxp
  · have hjlen : j < (jsSplitOn '\n' content).length := by
      by_contra hc
      rw [List.getElem?_eq_none (by omega)] at hj
      cases hj
    have hysplit : jsSplitOn '\n' y = [y] := by
      apply jsSplitOn_eq_single
      exact mem_jsSplitOn_no_sep '\n' content y (List.getElem?_mem hj)
    rw [hysplit] at hxp
    obtain rfl : x = y := by simpa using hxp
    have hmapfst : (blockResolutions (parseConflicts content)).map Prod.fst =
        parseConflicts content := by
      unfold blockResolutions
      rw [List.map_map,
        show (Prod.fst ∘ fun b : ConflictBlock =>
          (b, (smartResolution b.oursContent b.theirsContent).1)) = id from rfl,
        List.map_id]
    rw [hmapfst] at hout
    have := houtside j hjlen (by simpa using hout)
    rw [List.getD_eq_getElem?_getD, hj] at this
    simpa using this

/-- Witness for C4 (amended) at a concrete file: one resolvable block
with clean resolution text and clean surrounding lines; every block is
resolved and the rewritten content parses to zero blocks. -/
theorem c4_full_resolution_witness :
    (applySmartLines (jsSplitOn '\n' c4wcontent) (parseConflicts c4wcontent)).2.1 =
      (parseConflicts c4wcontent).length
    ∧ parseConflicts (jsJoin '\n'
        (applySmartLines (jsSplitOn '\n' c4wcontent) (parseConflicts c4wcontent)).1) = [] :=
  ⟨(c4_full_resolution c4wcontent (by decide) (by decide) (by decide)).1,
   (c4_full_resolution c4wcontent (by decide) (by decide) (by decide)).2.2⟩

/-! ## Preview-mode and continuation properties of handleAutoResolve -/

theorem resolveOneFile_preview_no_effects (env : RCEnv) (strategy : String) (file : JStr) :
    (resolveOneFile env strategy true file).2.2 = [] := by
  unfold resolveOneFile
  split <;> simp

theorem autoResolveFileStep_preview_trace (env : RCEnv) (strategy : String)
    (st : RunSt) (file : JStr) :
    (autoResolveFileStep env strategy true st file).trace = st.trace := by
  unfold autoResolveFileStep
  have h := resolveOneFile_preview_no_effects env strategy file
  split
  · next hcontra => simp at hcontra
  · simp only [h, List.append_nil]
    split <;> rfl

theorem foldl_preview_trace : ∀ (files : List JStr) (env : RCEnv) (strategy : String)
    (st : RunSt),
    (files.foldl (autoResolveFileStep env strategy true) st).trace = st.trace := by
  intro files
  induction files with
  | nil => intro env strategy st; rfl
  | cons f fs ih =>
    intro env strategy st
    rw [List.foldl_cons, ih, autoResolveFileStep_preview_trace]

/-- C5 (amended): a preview run of auto-resolution performs no mutation
at all — no file write, no backup stash, no checkout, no staging and no
continuation of a suspended operation; for any environment and strategy
the whole effect trace is free of mutations (at most the read-only
unmerged-files listing is executed).  The classification run in preview
is however a reduced one, not the one of a real run (see the
counterexample). -/
theorem c5_preview_no_mutation (env : RCEnv) (strategy : String) (targetFiles : List JStr)
    (backupChanges continueOperation : Bool) :
    ((handleAutoResolveRC env strategy targetFiles backupChanges continueOperation true).trace.all
      fun e => !e.isMutation) = true := by
  have hb : ∀ x : Bool, (x && !true) = false := by decide
  simp only [handleAutoResolveRC, hb, Bool.false_eq_true, if_false]
  by_cases ht : targetFiles = []
  · rw [if_neg (show ¬targetFiles ≠ [] from fun hc => hc ht)]
    by_cases h2 : getConflictedFiles env = []
    · rw [if_pos h2]
      simp [RCEffect.isMutation, RCCmd.isMutating]
    · rw [if_neg h2, foldl_preview_trace]
      simp [RCEffect.isMutation, RCCmd.isMutating]
  · rw [if_pos (show targetFiles ≠ [] from ht)]
    rw [if_neg ht, foldl_preview_trace]
    simp

/-- Counterexample to C5 as stated: the claim asserts that preview mode
runs the same classification and resolved-count logic as a real run.
On the file of `rcEnvManual` (one block with hyphenated sides) the
preview run counts the file as resolved (totalResolved one, description
`Would require manual resolution`), while the real smart run resolves
nothing; and the block with sides `a`/`b` is really resolved as combined
additions, yet its preview description claims manual resolution.  The
classification and counting logic of the two modes differ. -/
theorem c5_counterexample :
    (handleAutoResolveRC rcEnvManual "smart" ["f".toList] false false true).totalResolved = 1
    ∧ (handleAutoResolveRC rcEnvManual "smart" ["f".toList] false false false).totalResolved = 0
    ∧ (resolveOneFile rcEnvManual "smart" true "f".toList).2.1 =
        ["Would require manual resolution"]
    ∧ (smartResolution "a".toList "b".toList).2 = "combined additions"
    ∧ previewStrategyFor
        { start := 0, endIdx := 2, oursContent := "a".toList, theirsContent := "b".toList } =
        "Would require manual resolution" := by
  decide

theorem resolveOneFile_no_continuation (env : RCEnv) (strategy : String)
    (previewOnly : Bool) (file : JStr) :
    ((resolveOneFile env strategy previewOnly file).2.2.all
      notMergeOrCherryContinuation) = true := by
  simp only [resolveOneFile]
  split
  · split
    · split <;> simp [notMergeOrCherryContinuation]
    · simp
  · split
    · split <;> simp [notMergeOrCherryContinuation]
    · simp
  · split
    · simp only [applySmartResolutionM]
      split <;> simp [notMergeOrCherryContinuation]
    · simp
  · simp

theorem autoResolveFileStep_no_continuation (env : RCEnv) (strategy : String)
    (previewOnly : Bool) (st : RunSt) (file : JStr)
    (h : st.trace.all notMergeOrCherryContinuation = true) :
    ((autoResolveFileStep env strategy previewOnly st file).trace.all
      notMergeOrCherryContinuation) = true := by
  simp only [autoResolveFileStep]
  have hr := resolveOneFile_no_continuation env strategy previewOnly file
  split
  · split
    · simp [List.all_append, h, hr, notMergeOrCherryContinuation]
    · simp [List.all_append, h, hr]
  · simp [List.all_append, h, hr]

theorem foldl_no_continuation : ∀ (files : List JStr) (env : RCEnv) (strategy : String)
    (previewOnly : Bool) (st : RunSt),
    st.trace.all notMergeOrCherryContinuation = true →
    ((files.foldl (autoResolveFileStep env strategy previewOnly) st).trace.all
      notMergeOrCherryContinuation) = true := by
  intro files
  induction files with
  | nil => intro env strategy previewOnly st h; exact h
  | cons f fs ih =>
    intro env strategy previewOnly st h
    rw [List.foldl_cons]
    exact ih env strategy previewOnly _
      (autoResolveFileStep_no_continuation env strategy previewOnly st f h)

theorem continuationPhase_rebase (env : RCEnv) (st : RunSt)
    (hreb : (getConflictState env).inRebase = true)
    (h : st.trace.all notMergeOrCherryContinuation = true) :
    ((continuationPhase env st).trace.all notMergeOrCherryContinuation) = true := by
  simp only [continuationPhase, hreb, if_true]
  simp [List.all_append, h, notMergeOrCherryContinuation]

theorem handleAutoResolveRC_rebase_trace (env : RCEnv) (strategy : String)
    (targetFiles : List JStr) (backupChanges continueOperation previewOnly : Bool)
    (hreb : (getConflictState env).inRebase = true) :
    ((handleAutoResolveRC env strategy targetFiles backupChanges continueOperation
      previewOnly).trace.all notMergeOrCherryContinuation) = true := by
  have key : ∀ (files : List JStr) (st : RunSt) (c : Bool),
      st.trace.all notMergeOrCherryContinuation = true →
      ((if c = true then
          continuationPhase env (files.foldl (autoResolveFileStep env strategy previewOnly) st)
        else files.foldl (autoResolveFileStep env strategy previewOnly) st).trace.all
        notMergeOrCherryContinuation) = true := by
    intro files st c h
    have hf := foldl_no_continuation files env strategy previewOnly st h
    split
    · exact continuationPhase_rebase env _ hreb hf
    · exact hf
  simp only [handleAutoResolveRC]
  by_cases ht : targetFiles = []
  · rw [if_neg (show ¬targetFiles ≠ [] from fun hc => hc ht)]
    by_cases h2 : getConflictedFiles env = []
    · rw [if_pos h2]
      simp [notMergeOrCherryContinuation]
    · rw [if_neg h2]
      apply key
      split <;> simp [List.all_append, notMergeOrCherryContinuation]
  · rw [if_pos (show targetFiles ≠ [] from ht), if_neg ht]
    apply key
    split <;> simp [List.all_append, notMergeOrCherryContinuation]

/-! ## Claims C5, C6, C10 -/

/-- Counterexample to C6 as stated: with every operation indicator set
at once (merge head present and a rebase directory present), the
continuation that actually runs after full resolution is
`rebase --continue`, not the merge-completion commit; the claimed
precedence Merge over Rebase fails for the continuation choice. -/
theorem c6_counterexample :
    (getConflictState rcEnvAllStates).inMerge = true
    ∧ (getConflictState rcEnvAllStates).inRebase = true
    ∧ RCEffect.exec RCCmd.rebaseContinue ∈
        (handleAutoResolveRC rcEnvAllStates "ours" ["f".toList] false true false).trace
    ∧ RCEffect.exec RCCmd.commitNoEdit ∉
        (handleAutoResolveRC rcEnvAllStates "ours" ["f".toList] false true false).trace := by
  decide

/-- C6 (amended): when several operation indicators are true at once the
two precedence orders differ.  Status reporting checks Merge first
(Merge, then Rebase, then CherryPick), but the continuation choice after
auto-resolution checks Rebase first (Rebase, then Merge, then
CherryPick): with a rebase in progress the executed continuation is
`rebase --continue`, and neither the merge commit nor the cherry-pick
continuation is ever executed, whatever else is true. -/
theorem c6_precedence (env : RCEnv) (strategy : String) (targetFiles : List JStr)
    (backupChanges continueOperation previewOnly : Bool)
    (s : ConflictState)
    (hmerge : s.inMerge = true)
    (hreb : (getConflictState env).inRebase = true) :
    statusStateLine s = "Currently in merge operation"
    ∧ continuationChoice { s with inMerge := false } =
        (if s.inRebase then some RCCmd.rebaseContinue
         else if s.inCherryPick then some RCCmd.cherryPickContinue else none)
    ∧ (s.inRebase = true → continuationChoice s = some RCCmd.rebaseContinue)
    ∧ (s.inRebase = false → continuationChoice s = some RCCmd.commitNoEdit)
    ∧ ((handleAutoResolveRC env strategy targetFiles backupChanges continueOperation
        previewOnly).trace.all notMergeOrCherryContinuation) = true := by
  refine ⟨?_, ?_, ?_, ?_, ?_⟩
  · unfold statusStateLine
    rw [if_pos hmerge]
  · unfold continuationChoice
    simp
  · intro hr
    unfold continuationChoice
    rw [if_pos hr]
  · intro hr
    unfold continuationChoice
    rw [if_neg (by simp [hr]), if_pos hmerge]
  · exact handleAutoResolveRC_rebase_trace env strategy targetFiles backupChanges
      continueOperation previewOnly hreb

/-- Witness for C6 (amended) at the concrete all-indicators environment:
merge is reported first in the status line, but with the same state the
rebase continuation is chosen, and the run trace contains no merge
commit and no cherry-pick continuation. -/
theorem c6_precedence_witness :
    statusStateLine (getConflictState rcEnvAllStates) = "Currently in merge operation"
    ∧ (getConflictState rcEnvAllStates).inRebase = true
    ∧ continuationChoice (getConflictState rcEnvAllStates) = some RCCmd.rebaseContinue
    ∧ ((handleAutoResolveRC rcEnvAllStates "ours" ["f".toList] false true false).trace.all
        notMergeOrCherryContinuation) = true := by
  have h := c6_precedence rcEnvAllStates "ours" ["f".toList] false true false
    (getConflictState rcEnvAllStates) (by decide) (by decide)
  exact ⟨h.1, by decide, h.2.2.1 (by decide), h.2.2.2.2⟩

/-- C10: in preview mode with the smart strategy, the resolved count
reported for a file equals the total number of its conflict blocks, with
one would-do description per block — including blocks whose description
is `Would require manual resolution` — so a preview run counts as
resolved blocks that a real smart run leaves unresolved: on the
`rcEnvManual` file the preview reports one resolved, the real run zero. -/
theorem c10_preview_counts_every_block :
    (∀ (env : RCEnv) (file : JStr),
      (resolveOneFile env "smart" true file).1 = (parseConflicts (env.file file)).length
      ∧ (resolveOneFile env "smart" true file).2.1 =
          previewSmartStrategies (parseConflicts (env.file file)))
    ∧ (resolveOneFile rcEnvManual "smart" true "f".toList).2.1 =
        ["Would require manual resolution"]
    ∧ (resolveOneFile rcEnvManual "smart" true "f".toList).1 = 1
    ∧ (resolveOneFile rcEnvManual "smart" false "f".toList).1 = 0
    ∧ (handleAutoResolveRC rcEnvManual "smart" ["f".toList] false false true).totalResolved = 1
    ∧ (handleAutoResolveRC rcEnvManual "smart" ["f".toList] false false false).totalResolved
        = 0 := by
  refine ⟨?_, by decide, by decide, by decide, by decide, by decide⟩
  intro env file
  constructor
  · simp [resolveOneFile, previewSmartStrategies]
  · simp [resolveOneFile]

/-! ## parseInt and ahead/behind lemmas (claim C1) -/

theorem digit_not_white (c : Char) (h : c.isDigit = true) : jsIsWhite c = false := by
  by_contra hc
  rw [Bool.not_eq_false] at hc
  unfold jsIsWhite at hc
  simp only [Bool.or_eq_true, decide_eq_true_eq] at hc
  rcases hc with ((((rfl | rfl) | rfl) | rfl) | rfl) | rfl <;> exact absurd h (by decide)

theorem digit_not_tab (s : JStr) (h : s.all Char.isDigit = true) : '\t' ∉ s := by
  intro hm
  have := List.all_eq_true.mp h _ hm
  exact absurd this (by decide)

theorem jsTrim_eq_self (s : JStr)
    (h1 : ∀ c, s.head? = some c → jsIsWhite c = false)
    (h2 : ∀ c, s.getLast? = some c → jsIsWhite c = false) : jsTrim s = s := by
  unfold jsTrim
  have hd : s.dropWhile jsIsWhite = s := by
    cases s with
    | nil => rfl
    | cons a as => rw [List.dropWhile_cons, if_neg (by simp [h1 a rfl])]
  rw [hd]
  have hd2 : s.reverse.dropWhile jsIsWhite = s.reverse := by
    cases hr : s.reverse with
    | nil => rfl
    | cons a as =>
      rw [List.dropWhile_cons, if_neg ?_]
      have hl : s.getLast? = some a := by
        rw [← List.head?_reverse, hr]
        rfl
      simp [h2 a hl]
  rw [hd2, List.reverse_reverse]

theorem jsParseInt_digits (s : JStr) (h : s ≠ []) (hd : s.all Char.isDigit = true) :
    jsParseInt s = some ((decNat s : Nat) : Int) := by
  cases s with
  | nil => exact absurd rfl h
  | cons c cs =>
    have hc : c.isDigit = true := List.all_eq_true.mp hd c (by simp)
    have hcs : ∀ x ∈ cs, x.isDigit = true :=
      fun x hx => List.all_eq_true.mp hd x (by simp [hx])
    simp only [jsParseInt]
    rw [show (c :: cs).dropWhile jsIsWhite = c :: cs from by
      rw [List.dropWhile_cons, if_neg (by simp [digit_not_white c hc])]]
    have hsign : (match c :: cs with
        | '-' :: r => ((-1 : Int), r)
        | '+' :: r => ((1 : Int), r)
        | r => ((1 : Int), r)) = ((1 : Int), c :: cs) := by
      have hcm : c ≠ '-' := by
        intro hcc
        rw [hcc] at hc
        exact absurd hc (by decide)
      have hcp : c ≠ '+' := by
        intro hcc
        rw [hcc] at hc
        exact absurd hc (by decide)
      split
      · next heq => rw [List.cons.injEq] at heq; exact absurd heq.1 hcm
      · next heq => rw [List.cons.injEq] at heq; exact absurd heq.1 hcp
      · rfl
    rw [hsign]
    have hrun : digitRunVal Char.isDigit decDigitVal 10 (c :: cs) =
        some (decNat (c :: cs)) := by
      unfold digitRunVal
      rw [List.takeWhile_eq_self_iff.mpr (by
        intro x hx
        exact List.all_eq_true.mp hd x hx)]
      rw [if_neg (by simp)]
      rfl
    have hmain : (match c :: cs with
        | '0' :: 'x' :: r =>
          (digitRunVal isHexDigit hexDigitVal 16 r).map fun n => (1 : Int) * (n : Int)
        | '0' :: 'X' :: r =>
          (digitRunVal isHexDigit hexDigitVal 16 r).map fun n => (1 : Int) * (n : Int)
        | r =>
          (digitRunVal Char.isDigit decDigitVal 10 r).map fun n => (1 : Int) * (n : Int)) =
        some ((decNat (c :: cs) : Nat) : Int) := by
      split
      · next heq =>
        rw [List.cons.injEq] at heq
        obtain ⟨-, heq2⟩ := heq
        have : ('x' : Char).isDigit = true := by
          have := hcs 'x' (by rw [heq2]; simp)
          exact this
        exact absurd this (by decide)
      · next heq =>
        rw [List.cons.injEq] at heq
        obtain ⟨-, heq2⟩ := heq
        have : ('X' : Char).isDigit = true := by
          have := hcs 'X' (by rw [heq2]; simp)
          exact this
        exact absurd this (by decide)
      · rw [hrun]
        simp
    exact hmain

theorem jsParseIntOr0_digits (s : JStr) (h : s ≠ []) (hd : s.all Char.isDigit = true) :
    jsParseIntOr0 s = ((decNat s : Nat) : Int) := by
  unfold jsParseIntOr0
  rw [jsParseInt_digits s h hd]
  rfl

/-! ## Claim C1: ahead/behind reporting -/

/-- Counterexample to C1 as stated: on malformed left-right count output
(`x\ty`) the computation reports `{ahead: 0, behind: 0}` — each column
parses as NaN and collapses to zero through `parseInt(n) || 0` — which
is exactly the result of the genuine output `0\t0`; neither field is
the undefined (unknown) value, so the result cannot distinguish zero
from could-not-determine. -/
theorem c1_counterexample :
    getAheadBehindInfo (sEnvRevList "x\ty".toList true) "b".toList "main".toList =
      { ahead := some 0, behind := some 0 }
    ∧ getAheadBehindInfo (sEnvRevList "x\ty".toList true) "b".toList "main".toList =
        getAheadBehindInfo (sEnvRevList "0\t0".toList true) "b".toList "main".toList
    ∧ (getAheadBehindInfo (sEnvRevList "x\ty".toList true) "b".toList "main".toList).ahead
        ≠ none
    ∧ (getAheadBehindInfo (sEnvRevList "x\ty".toList true) "b".toList "main".toList).behind
        ≠ none := by
  decide

/-- C1 (amended): on a successful two-column output `<c1>TAB<c2>` the
first column is assigned to behind and the second to ahead (each parsed
with the `parseInt(n) || 0` idiom, so a malformed column collapses to
zero); a failed command yields `{ahead: 0, behind: 0}`, and so does a
successful empty output, in both cases indistinguishable from
genuinely synchronized branches; a successful single-column (tab-less)
output is the one case with an unknown count: the destructuring leaves
`ahead` undefined (modelled as `none`) while behind still receives the
parsed first column. -/
theorem c1_ahead_behind_columns :
    (∀ (env : SEnv) (branch base s₁ s₂ e : JStr),
      s₁ ≠ [] → s₂ ≠ [] → s₁.all Char.isDigit = true → s₂.all Char.isDigit = true →
      env.run (.revListCount base branch) =
        { stdout := s₁ ++ '\t' :: s₂, success := true, err := e } →
      getAheadBehindInfo env branch base =
        { ahead := some ((decNat s₂ : Nat) : Int), behind := some ((decNat s₁ : Nat) : Int) })
    ∧ (∀ (env : SEnv) (branch base o e : JStr),
      env.run (.revListCount base branch) = { stdout := o, success := false, err := e } →
      getAheadBehindInfo env branch base = { ahead := some 0, behind := some 0 })
    ∧ (∀ (env : SEnv) (branch base s e : JStr),
      s ≠ [] → s.all Char.isDigit = true →
      env.run (.revListCount base branch) = { stdout := s, success := true, err := e } →
      getAheadBehindInfo env branch base =
        { ahead := none, behind := some ((decNat s : Nat) : Int) })
    ∧ (∀ (env : SEnv) (branch base e : JStr),
      env.run (.revListCount base branch) = { stdout := [], success := true, err := e } →
      getAheadBehindInfo env branch base = { ahead := some 0, behind := some 0 }) := by
  refine ⟨?_, ?_, ?_, ?_⟩
  · intro env branch base s₁ s₂ e h1 h2 hd1 hd2 hrun
    have htrim : jsTrim (s₁ ++ '\t' :: s₂) = s₁ ++ '\t' :: s₂ := by
      apply jsTrim_eq_self
      · intro c hc
        cases s₁ with
        | nil => exact absurd rfl h1
        | cons a as =>
          rw [List.cons_append, List.head?_cons, Option.some.injEq] at hc
          rw [← hc]
          exact digit_not_white a (List.all_eq_true.mp hd1 a (by simp))
      · intro c hc
        rw [List.getLast?_append_of_ne_nil _ (by simp)] at hc
        cases s₂ with
        | nil => exact absurd rfl h2
        | cons b bs =>
          rw [show ('\t' :: b :: bs).getLast? = (b :: bs).getLast? from rfl] at hc
          have hmem : c ∈ b :: bs := List.mem_of_mem_getLast? hc
          exact digit_not_white c (List.all_eq_true.mp hd2 c hmem)
    have hsplit : jsSplitOn '\t' (s₁ ++ '\t' :: s₂) = [s₁, s₂] := by
      rw [jsSplitOn_append, jsSplitOn_eq_single '\t' s₁ (digit_not_tab s₁ hd1),
        jsSplitOn_eq_single '\t' s₂ (digit_not_tab s₂ hd2)]
      rfl
    unfold getAheadBehindInfo executeGitCommand
    rw [hrun]
    dsimp only
    rw [if_pos rfl]
    dsimp only
    rw [htrim, htrim]
    rw [if_pos (by simp)]
    rw [hsplit]
    dsimp only [List.map_cons, List.map_nil]
    rw [jsParseIntOr0_digits s₁ h1 hd1, jsParseIntOr0_digits s₂ h2 hd2]
    rfl
  · intro env branch base o e hrun
    unfold getAheadBehindInfo executeGitCommand
    rw [hrun]
    dsimp only
    rfl
  · intro env branch base s e hne hd hrun
    have htrim : jsTrim s = s := by
      apply jsTrim_eq_self
      · intro c hc
        cases s with
        | nil => exact absurd rfl hne
        | cons a as =>
          rw [List.head?_cons, Option.some.injEq] at hc
          rw [← hc]
          exact digit_not_white a (List.all_eq_true.mp hd a (by simp))
      · intro c hc
        have hmem : c ∈ s := List.mem_of_mem_getLast? hc
        exact digit_not_white c (List.all_eq_true.mp hd c hmem)
    have hsplit : jsSplitOn '\t' s = [s] :=
      jsSplitOn_eq_single '\t' s (digit_not_tab s hd)
    unfold getAheadBehindInfo executeGitCommand
    rw [hrun]
    dsimp only
    rw [if_pos rfl]
    dsimp only
    rw [htrim, htrim]
    rw [if_pos (by simp [hne])]
    rw [hsplit]
    dsimp only [List.map_cons, List.map_nil]
    rw [jsParseIntOr0_digits s hne hd]
    rfl
  · intro env branch base e hrun
    unfold getAheadBehindInfo executeGitCommand
    rw [hrun]
    dsimp only
    rfl

/-- Witness for C1 (amended): the claim example — two commits only on
the local side — has output `0	2` and reports ahead two, behind zero;
a failed command reports zero for both; a successful single-column
output `5` reports behind five with ahead undefined; and a successful
empty output reports zero for both. -/
theorem c1_ahead_behind_columns_witness :
    getAheadBehindInfo (sEnvRevList "0\t2".toList true) "b".toList "main".toList =
      { ahead := some 2, behind := some 0 }
    ∧ getAheadBehindInfo (sEnvRevList [] false) "b".toList "main".toList =
        { ahead := some 0, behind := some 0 }
    ∧ getAheadBehindInfo (sEnvRevList "5".toList true) "b".toList "main".toList =
        { ahead := none, behind := some 5 }
    ∧ getAheadBehindInfo (sEnvRevList [] true) "b".toList "main".toList =
        { ahead := some 0, behind := some 0 } := by
  refine ⟨?_, ?_, ?_, ?_⟩
  · have h := c1_ahead_behind_columns.1 (sEnvRevList "0\t2".toList true)
      "b".toList "main".toList "0".toList "2".toList "boom".toList
      (by decide) (by decide) (by decide) (by decide) (by decide)
    rw [h]
    decide
  · exact c1_ahead_behind_columns.2.1 (sEnvRevList [] false)
      "b".toList "main".toList [] "boom".toList (by decide)
  · have h := c1_ahead_behind_columns.2.2.1 (sEnvRevList "5".toList true)
      "b".toList "main".toList "5".toList "boom".toList
      (by decide) (by decide) (by decide)
    rw [h]
    decide
  · exact c1_ahead_behind_columns.2.2.2 (sEnvRevList [] true)
      "b".toList "main".toList "boom".toList (by decide)

/-! ## Claim C7: sync auto-resolve strategies -/

/-- Counterexample to C7 as stated: in the sync executor the smart
strategy does not run the conflict classifier at all — for a conflicted
file it executes exactly `git checkout --theirs` followed by `git add`,
the identical command sequence of the theirs strategy, taking the whole
incoming side of the file. -/
theorem c7_counterexample :
    (syncHandleAutoResolve sEnvOkAll ["f".toList] "smart").trace =
      [SyncCmd.checkoutTheirsFile "f".toList, SyncCmd.addFile "f".toList]
    ∧ (syncHandleAutoResolve sEnvOkAll ["f".toList] "smart").trace =
        (syncHandleAutoResolve sEnvOkAll ["f".toList] "theirs").trace
    ∧ (syncHandleAutoResolve sEnvOkAll ["f".toList] "smart").resolvedCount = 1 := by
  decide

theorem syncAutoResolveStep_smart_theirs (env : SEnv) (st₁ st₂ : AutoResolveSt)
    (f : JStr) (ht : st₁.trace = st₂.trace)
    (hc : st₁.resolvedCount = st₂.resolvedCount) :
    (syncAutoResolveStep env "smart" st₁ f).trace =
      (syncAutoResolveStep env "theirs" st₂ f).trace
    ∧ (syncAutoResolveStep env "smart" st₁ f).resolvedCount =
        (syncAutoResolveStep env "theirs" st₂ f).resolvedCount := by
  simp only [syncAutoResolveStep, attemptSmartResolve]
  split <;> (try split) <;> simp [ht, hc]

theorem syncFold_smart_theirs : ∀ (conflicts : List JStr) (env : SEnv)
    (st₁ st₂ : AutoResolveSt), st₁.trace = st₂.trace →
    st₁.resolvedCount = st₂.resolvedCount →
    (conflicts.foldl (syncAutoResolveStep env "smart") st₁).trace =
      (conflicts.foldl (syncAutoResolveStep env "theirs") st₂).trace
    ∧ (conflicts.foldl (syncAutoResolveStep env "smart") st₁).resolvedCount =
        (conflicts.foldl (syncAutoResolveStep env "theirs") st₂).resolvedCount := by
  intro conflicts
  induction conflicts with
  | nil => intro env st₁ st₂ ht hc; exact ⟨ht, hc⟩
  | cons f fs ih =>
    intro env st₁ st₂ ht hc
    rw [List.foldl_cons, List.foldl_cons]
    obtain ⟨ht', hc'⟩ := syncAutoResolveStep_smart_theirs env st₁ st₂ f ht hc
    exact ih env _ _ ht' hc'

/-- C7 (amended): in the sync executor, Ours and Theirs take the whole
file side via the two-way checkout; Smart does not run the conflict
classifier either — `attemptSmartResolve` is exactly the whole-file
theirs checkout, so a smart run issues the same commands, resolves the
same number of files and reports the same success as a theirs run.  The
full per-block classifier runs only inside the resolve_conflicts tool. -/
theorem c7_sync_smart_is_whole_theirs :
    (∀ (env : SEnv) (file : JStr),
      attemptSmartResolve env file =
        (executeGitCommand env (.checkoutTheirsFile file), [.checkoutTheirsFile file]))
    ∧ (∀ (env : SEnv) (conflicts : List JStr),
        (syncHandleAutoResolve env conflicts "smart").trace =
          (syncHandleAutoResolve env conflicts "theirs").trace
        ∧ (syncHandleAutoResolve env conflicts "smart").resolvedCount =
            (syncHandleAutoResolve env conflicts "theirs").resolvedCount
        ∧ (syncHandleAutoResolve env conflicts "smart").success =
            (syncHandleAutoResolve env conflicts "theirs").success) := by
  refine ⟨fun env file => rfl, fun env conflicts => ?_⟩
  obtain ⟨ht, hc⟩ := syncFold_smart_theirs conflicts env
    { success := false, resolvedCount := 0, steps := [], warnings := [], trace := [] }
    { success := false, resolvedCount := 0, steps := [], warnings := [], trace := [] }
    rfl rfl
  unfold syncHandleAutoResolve
  exact ⟨ht, hc, by simp [hc]⟩

/-! ## Claim C8: unknown sync strategy -/

theorem performSync_unknown (env : SEnv) (target withB : JStr) (s : String)
    (h : s ∉ (["fast-forward", "merge", "rebase"] : List String)) :
    performSync env target withB s =
      { success := false, err := some ("Unknown strategy: ".toList ++ s.toList),
        steps := [], trace := [] } := by
  unfold performSync
  split
  · exact absurd (by simp) h
  · exact absurd (by simp) h
  · exact absurd (by simp) h
  · rfl

theorem continueSyncOperation_unknown (env : SEnv) (s : String)
    (h : s ∉ (["rebase", "merge"] : List String)) :
    continueSyncOperation env s =
      { success := true, err := none, steps := [], trace := [] } := by
  unfold continueSyncOperation
  split
  · exact absurd (by simp) h
  · exact absurd (by simp) h
  · rfl

theorem syncAutoResolveStep_no_syncop (env : SEnv) (ar : String) (st : AutoResolveSt)
    (f : JStr) (h : (st.trace.all fun c => !c.isSyncOperation) = true) :
    ((syncAutoResolveStep env ar st f).trace.all fun c => !c.isSyncOperation) = true := by
  simp only [syncAutoResolveStep, attemptSmartResolve]
  split <;> (try split) <;> (try split) <;>
    simp_all [List.all_append, SyncCmd.isSyncOperation, List.all_eq_true]

theorem syncFold_no_syncop : ∀ (files : List JStr) (env : SEnv) (ar : String)
    (st : AutoResolveSt), (st.trace.all fun c => !c.isSyncOperation) = true →
    (((files.foldl (syncAutoResolveStep env ar) st)).trace.all
      fun c => !c.isSyncOperation) = true := by
  intro files
  induction files with
  | nil => intro env ar st h; exact h
  | cons f fs ih =>
    intro env ar st h
    rw [List.foldl_cons]
    exact ih env ar _ (syncAutoResolveStep_no_syncop env ar st f h)

theorem syncHandleAutoResolve_no_syncop (env : SEnv) (conflicts : List JStr)
    (ar : String) :
    ((syncHandleAutoResolve env conflicts ar).trace.all
      fun c => !c.isSyncOperation) = true := by
  unfold syncHandleAutoResolve
  exact syncFold_no_syncop conflicts env ar _ rfl

theorem syncFinish_no_syncop (env : SEnv) (a w : JStr) (s : String) (fp : Bool)
    (conf : List JStr) (st wn : List String) (t : List SyncCmd)
    (h : (t.all fun c => !c.isSyncOperation) = true) :
    ((syncFinish env a w s fp conf st wn t).trace.all fun c => !c.isSyncOperation) = true := by
  simp only [syncFinish]
  split <;> simp_all [List.all_append, SyncCmd.isSyncOperation, List.all_eq_true]

theorem syncConflictPhase_no_syncop (env : SEnv) (a w : JStr) (s : String)
    (autoResolve : Option String) (fp : Bool) (sr : SyncStepResult)
    (st : List String) (t8 : List SyncCmd)
    (hns : s ∉ (["rebase", "merge"] : List String))
    (h : (t8.all fun c => !c.isSyncOperation) = true) :
    ((syncConflictPhase env a w s autoResolve fp sr st t8).trace.all
      fun c => !c.isSyncOperation) = true := by
  have hcont := continueSyncOperation_unknown env s hns
  simp only [syncConflictPhase, hcont]
  repeat' split
  all_goals
    first
    | (apply syncFinish_no_syncop
       simp [-List.all_eq_true, List.all_append, h, syncHandleAutoResolve_no_syncop]
       try decide
       done)
    | (simp [-List.all_eq_true, List.all_append, h, syncHandleAutoResolve_no_syncop]
       try decide
       done)
    | (simp_all
       done)

theorem syncFetchPhase_no_syncop (env : SEnv) (a w : JStr) (s : String)
    (autoResolve : Option String) (fp : Bool) (steps1 : List String)
    (t5 : List SyncCmd)
    (hs : s ∉ (["fast-forward", "merge", "rebase"] : List String))
    (h : (t5.all fun c => !c.isSyncOperation) = true) :
    ((syncFetchPhase env a w s autoResolve fp steps1 t5).trace.all
      fun c => !c.isSyncOperation) = true := by
  have hns : s ∉ (["rebase", "merge"] : List String) := by
    intro hm
    apply hs
    simp at hm ⊢
    tauto
  have hps := performSync_unknown env a w s hs
  simp only [syncFetchPhase, hps]
  split
  · simp only [List.all_append, h]
    simp [SyncCmd.isSyncOperation]
  · apply syncConflictPhase_no_syncop _ _ _ _ _ _ _ _ _ hns
    simp only [List.all_append, h]
    simp [SyncCmd.isSyncOperation]

theorem syncValidatePhase_no_syncop (env : SEnv) (a w : JStr) (s : String)
    (autoResolve : Option String) (fp : Bool) (cb : Option JStr)
    (hs : s ∉ (["fast-forward", "merge", "rebase"] : List String)) :
    ((syncValidatePhase env a w s autoResolve fp cb).trace.all
      fun c => !c.isSyncOperation) = true := by
  simp only [syncValidatePhase]
  repeat' split
  all_goals
    first
    | (apply syncFetchPhase_no_syncop _ _ _ _ _ _ _ _ hs
       repeat' split
       all_goals simp [-List.all_eq_true, List.all_append, SyncCmd.isSyncOperation]
       done)
    | (simp [-List.all_eq_true, List.all_append, SyncCmd.isSyncOperation]
       done)
    | (simp_all
       done)

/-- C8 counterexample: running the whole sync tool with the unknown
strategy bogus in a well-formed repository reports the distinct
unknown-strategy failure, but only after the validation, fetch and
accounting commands have executed, so the rejection does not happen
before any command executes. -/
theorem c8_counterexample :
    (syncWork sEnvC8 (some "feature".toList) "main".toList "bogus" none false).errText
      = some "Sync failed: Unknown strategy: bogus".toList ∧
    SyncCmd.fetchOrigin "main".toList ∈
      (syncWork sEnvC8 (some "feature".toList) "main".toList "bogus" none false).trace ∧
    (syncWork sEnvC8 (some "feature".toList) "main".toList "bogus" none false).trace ≠ [] := by
  decide

/-- C8: a strategy outside fast-forward, merge and rebase makes the sync
executor performSync fail with the distinct unknown-strategy error while
executing no git operation of its own, and a whole syncWork run with such
a strategy never executes a sync-operation command (no merge and no
rebase); the rejection is only distinct and non-defaulting, not prior to
every command, since validation and fetch commands run first. -/
theorem c8_unknown_strategy :
    (∀ (env : SEnv) (target withB : JStr) (s : String),
      s ∉ (["fast-forward", "merge", "rebase"] : List String) →
      performSync env target withB s =
        { success := false, err := some ("Unknown strategy: ".toList ++ s.toList),
          steps := [], trace := [] }) ∧
    (∀ (env : SEnv) (targetBranch : Option JStr) (withB : JStr) (s : String)
      (autoResolve : Option String) (forcePush : Bool),
      s ∉ (["fast-forward", "merge", "rebase"] : List String) →
      ((syncWork env targetBranch withB s autoResolve forcePush).trace.all
        fun c => !c.isSyncOperation) = true) := by
  constructor
  · exact performSync_unknown
  · intro env targetBranch withB s autoResolve forcePush h
    simp only [syncWork]
    split
    · simp [-List.all_eq_true, SyncCmd.isSyncOperation]
    · exact syncValidatePhase_no_syncop env _ withB s autoResolve forcePush _ h

/-- C8 witness: the claim theorem applied to the concrete unknown
strategy bogus, in the all-succeeding environment for the executor part
and in the counterexample environment for the whole-run part. -/
theorem c8_unknown_strategy_witness :
    performSync sEnvOkAll "main".toList "dev".toList "bogus" =
      { success := false, err := some ("Unknown strategy: ".toList ++ "bogus".toList),
        steps := [], trace := [] } ∧
    ((syncWork sEnvC8 (some "feature".toList) "main".toList "bogus" none false).trace.all
      fun c => !c.isSyncOperation) = true :=
  ⟨c8_unknown_strategy.1 sEnvOkAll "main".toList "dev".toList "bogus" (by decide),
   c8_unknown_strategy.2 sEnvC8 (some "feature".toList) "main".toList "bogus" none false
     (by decide)⟩
